import Mathlib

/-!
# wifi-udp-stream / wifi-udp-stream-olsr: throughput sampling over a discrete-event run

Shallow embedding of the two scenario scripts `wifi-udp-stream.cc` and
`wifi-udp-stream-olsr.cc`.  Both scripts share, line for line, the global
sampler state (`sink`, `lastTotalRx`), the function `CalculateThroughput`, the
variable defaults and command-line bindings of `main`, the application start
times, the first sample, the stop time and the final average.

Conventions of the embedding:

* `double` values are embedded as rationals (`ℚ`) with exact arithmetic; the
  rounding of IEEE-754 doubles is outside the model.
* `uint64_t` / `uint32_t` values are naturals, and every operation that can
  wrap carries its explicit `% 2 ^ 64` / `% 2 ^ 32`.
* Virtual time is a rational number of milliseconds.
* The packet sink is an external collaborator: `sink t` is the value that
  `sink->GetTotalRx()` returns when read at virtual time `t`.
* The `int` loop counters are integers with explicit 32-bit wrap-around; the position
  loop is common to both scripts, the static-route loop is in `wifi-udp-stream.cc` only.
-/

namespace WifiUdpStream

/-! ## The sampler: `CalculateThroughput` -/

/-- One printed throughput line together with the quantities it was computed from. -/
structure ThroughputSample where
  /-- Virtual time `Simulator::Now()` of the firing, in milliseconds. -/
  timestamp : ℚ
  /-- The unsigned 64-bit difference `sink->GetTotalRx() - lastTotalRx`. -/
  bytesSinceLast : ℕ
  /-- The `sampleInterval` argument of the firing. -/
  intervalMillis : ℚ
  /-- The printed value `cur`. -/
  rateMbps : ℚ
  deriving DecidableEq, Repr

/-- The value printed as `now.GetSeconds()`. -/
def ThroughputSample.seconds (s : ThroughputSample) : ℚ := s.timestamp / 1000

/-- What one call of `CalculateThroughput` does. -/
structure Firing where
  /-- The line printed on `std::cout`. -/
  sample : ThroughputSample
  /-- The new value of the global `lastTotalRx`. -/
  lastTotalRx : ℕ
  /-- The argument of `MilliSeconds(...)` given to `Simulator::Schedule`. -/
  rearm : ℚ
  deriving DecidableEq, Repr

/-- Unsigned 64-bit subtraction `a - b`. -/
def sub64 (a b : ℕ) : ℕ := (a + 2 ^ 64 - b % 2 ^ 64) % 2 ^ 64

/-- The body of `CalculateThroughput(double sampleInterval)`, run at virtual time `now`
while `sink->GetTotalRx()` returns `totalRx` and the global holds `lastTotalRx`:
`cur = (sink->GetTotalRx() - lastTotalRx) * 8.0 / (sampleInterval * 1e3)`. -/
def CalculateThroughput (sampleInterval now : ℚ) (totalRx lastTotalRx : ℕ) : Firing :=
  let delta := sub64 totalRx lastTotalRx
  let cur : ℚ := (delta : ℚ) * 8 / (sampleInterval * 1000)
  { sample := { timestamp := now, bytesSinceLast := delta,
                intervalMillis := sampleInterval, rateMbps := cur }
    lastTotalRx := totalRx
    rearm := sampleInterval }

/-- A run of the sampler: `CalculateThroughput` fired once per reading `(now, totalRx)`,
in order, threading the global `lastTotalRx`.  Returns the printed samples and the
final value of `lastTotalRx`. -/
def fireAll (sampleInterval : ℚ) : List (ℚ × ℕ) → ℕ → List ThroughputSample × ℕ
  | [], last => ([], last)
  | (now, totalRx) :: rest, last =>
    let f := CalculateThroughput sampleInterval now totalRx last
    let r := fireAll sampleInterval rest f.lastTotalRx
    (f.sample :: r.1, r.2)

/-! ## Scenario parameters: the variables of `main` and their command-line bindings -/

/-- The tunable variables declared at the top of `main`. -/
structure ScenarioConfig where
  phyMode : String
  payloadSize : ℕ
  dataRate : String
  tcpVariant : String
  phyRate : String
  simulationTime : ℚ
  startMeasureTime : ℚ
  sampleInterval : ℚ
  pcapTracing : Bool
  numNodes : ℕ
  distance : ℚ
  deriving DecidableEq, Repr

/-- The initial values the variables of `main` are declared with. -/
def defaults : ScenarioConfig :=
  { phyMode := "DsssRate1Mbps"
    payloadSize := 1472
    dataRate := "100Mbps"
    tcpVariant := "TcpNewReno"
    phyRate := "HtMcs7"
    simulationTime := 10
    startMeasureTime := 5
    sampleInterval := 100
    pcapTracing := false
    numNodes := 3
    distance := 100 }

/-- Names of the variables of `main` that are bound to a command-line option. -/
inductive Var
  | phyMode | payloadSize | dataRate | tcpVariant | phyRate | simulationTime
  | startMeasureTime | sampleInterval | pcapTracing | numNodes | distance
  deriving DecidableEq, Repr

/-- A value of one of the four variable types (`std::string`, `uint32_t`, `double`, `bool`). -/
inductive Value
  | str (s : String)
  | uint (n : ℕ)
  | dbl (q : ℚ)
  | bool (b : Bool)
  deriving DecidableEq, Repr

/-- Current value of a variable. -/
def ScenarioConfig.get (c : ScenarioConfig) : Var → Value
  | .phyMode => .str c.phyMode
  | .payloadSize => .uint c.payloadSize
  | .dataRate => .str c.dataRate
  | .tcpVariant => .str c.tcpVariant
  | .phyRate => .str c.phyRate
  | .simulationTime => .dbl c.simulationTime
  | .startMeasureTime => .dbl c.startMeasureTime
  | .sampleInterval => .dbl c.sampleInterval
  | .pcapTracing => .bool c.pcapTracing
  | .numNodes => .uint c.numNodes
  | .distance => .dbl c.distance

/-- One option given on the command line, already converted to the type of the variable
that `cmd.AddValue` binds it to; one constructor per `cmd.AddValue` call, in source order. -/
inductive CmdOption
  | phyMode (v : String)
  | payloadSize (v : ℕ)
  | dataRate (v : String)
  | tcpVariant (v : String)
  | phyRate (v : String)
  | simulationTime (v : ℚ)
  | startMeasureTime (v : ℚ)
  | sampleInterval (v : ℚ)
  | pcap (v : Bool)
  | numNodes (v : ℕ)
  | distance (v : ℚ)
  deriving DecidableEq, Repr

/-- The option name registered by the `cmd.AddValue` call. -/
def CmdOption.name : CmdOption → String
  | .phyMode _ => "phyMode"
  | .payloadSize _ => "payloadSize"
  | .dataRate _ => "dataRate"
  | .tcpVariant _ => "tcpVariant"
  | .phyRate _ => "phyRate"
  | .simulationTime _ => "simulationTime"
  | .startMeasureTime _ => "startMeasureTime"
  | .sampleInterval _ => "sampleInterval"
  | .pcap _ => "pcap"
  | .numNodes _ => "numNodes"
  | .distance _ => "distance"

/-- The variable passed by reference in the `cmd.AddValue` call. -/
def CmdOption.var : CmdOption → Var
  | .phyMode _ => .phyMode
  | .payloadSize _ => .payloadSize
  | .dataRate _ => .dataRate
  | .tcpVariant _ => .tcpVariant
  | .phyRate _ => .phyRate
  | .simulationTime _ => .simulationTime
  | .startMeasureTime _ => .startMeasureTime
  | .sampleInterval _ => .sampleInterval
  | .pcap _ => .pcapTracing
  | .numNodes _ => .numNodes
  | .distance _ => .distance

/-- The value carried by the option. -/
def CmdOption.value : CmdOption → Value
  | .phyMode v => .str v
  | .payloadSize v => .uint v
  | .dataRate v => .str v
  | .tcpVariant v => .str v
  | .phyRate v => .str v
  | .simulationTime v => .dbl v
  | .startMeasureTime v => .dbl v
  | .sampleInterval v => .dbl v
  | .pcap v => .bool v
  | .numNodes v => .uint v
  | .distance v => .dbl v

/-- Modelled from the spec: the assignment `CommandLine::Parse` performs for one option
(class `CommandLine` is not part of the two scripts); the option writes the variable that
its `cmd.AddValue` call bound by reference. -/
def CmdOption.assign : CmdOption → ScenarioConfig → ScenarioConfig
  | .phyMode v, c => { c with phyMode := v }
  | .payloadSize v, c => { c with payloadSize := v }
  | .dataRate v, c => { c with dataRate := v }
  | .tcpVariant v, c => { c with tcpVariant := v }
  | .phyRate v, c => { c with phyRate := v }
  | .simulationTime v, c => { c with simulationTime := v }
  | .startMeasureTime v, c => { c with startMeasureTime := v }
  | .sampleInterval v, c => { c with sampleInterval := v }
  | .pcap v, c => { c with pcapTracing := v }
  | .numNodes v, c => { c with numNodes := v }
  | .distance v, c => { c with distance := v }

/-- Modelled from the spec: `cmd.Parse(argc, argv)` (class `CommandLine` is not part of the
two scripts) processes the given options from left to right. -/
def Parse (args : List CmdOption) (c : ScenarioConfig) : ScenarioConfig :=
  args.foldl (fun acc o => o.assign acc) c

/-! ## The discrete-event driver -/

/-- The error taxonomy of the design. -/
inductive SimError
  | InvalidConfig
  | InvalidDelay
  deriving DecidableEq, Repr

/-- Callbacks the scripts hand to `Simulator::Schedule`. -/
inductive Action
  | calculateThroughput (sampleInterval : ℚ)
  deriving DecidableEq, Repr

/-- A scheduled event. -/
structure Event where
  fireTime : ℚ
  sequence : ℕ
  action : Action
  deriving DecidableEq, Repr

/-- States of the driver. -/
inductive RunState
  | Idle
  | Running
  | Stopped
  deriving DecidableEq, Repr

/-- The driver (state, clock, queue, sequence counter) together with the globals of the
script (`lastTotalRx`, the lines printed so far) and the error that aborted the run. -/
structure SimState where
  state : RunState
  clock : ℚ
  queue : List Event
  nextSeq : ℕ
  lastTotalRx : ℕ
  output : List ThroughputSample
  failure : Option SimError
  deriving DecidableEq, Repr

/-- Modelled from the spec: `Seconds(x)` (the time type is not part of the two scripts), an
exact conversion to milliseconds. -/
def Seconds (x : ℚ) : ℚ := x * 1000

/-- Modelled from the spec: `MilliSeconds(x)` (the time type is not part of the two
scripts), taken as exact: the sampler re-schedules itself at `now() + intervalMillis`. -/
def MilliSeconds (x : ℚ) : ℚ := x

/-- Modelled from the spec: the EventQueue order (not part of the two scripts): ascending
`fireTime`, ties broken by insertion sequence. -/
def Event.before (a b : Event) : Bool :=
  decide (a.fireTime < b.fireTime) || (decide (a.fireTime = b.fireTime) && decide (a.sequence ≤ b.sequence))

/-- Modelled from the spec: insertion into the EventQueue (not part of the two scripts),
which is kept in firing order. -/
def EventQueue.insert (e : Event) : List Event → List Event
  | [] => [e]
  | x :: xs => if x.before e then x :: EventQueue.insert e xs else e :: x :: xs

/-- Modelled from the spec: `Simulator::Schedule(delay, action)` (the simulator is not part
of the two scripts): `delay` must be `≥ 0`, `InvalidDelay` otherwise; the event fires at
`currentClock + delay`. -/
def schedule (delay : ℚ) (a : Action) (s : SimState) : Except SimError SimState :=
  if delay < 0 then .error .InvalidDelay
  else .ok { s with queue := EventQueue.insert ⟨s.clock + delay, s.nextSeq, a⟩ s.queue
                    nextSeq := s.nextSeq + 1 }

/-- Modelled from the spec: `Simulator::Stop(delay)` (the simulator is not part of the two
scripts): a delay under the same `delay ≥ 0` contract; returns the horizon `stopTime`. -/
def Stop (delay : ℚ) (s : SimState) : Except SimError ℚ :=
  if delay < 0 then .error .InvalidDelay else .ok (s.clock + delay)

/-- Running an event's action at the current clock.  The only action is a firing of
`CalculateThroughput`: it prints its line, updates `lastTotalRx` and re-schedules itself;
an error raised by the re-scheduling is not caught and aborts the run. -/
def execute (sink : ℚ → ℕ) (a : Action) (s : SimState) : SimState :=
  match a with
  | .calculateThroughput m =>
    let f := CalculateThroughput m s.clock (sink s.clock) s.lastTotalRx
    let s1 := { s with output := s.output ++ [f.sample], lastTotalRx := f.lastTotalRx }
    match schedule (MilliSeconds f.rearm) (.calculateThroughput m) s1 with
    | .ok s2 => s2
    | .error e => { s1 with failure := some e }

/-- Modelled from the spec: one iteration of the driver loop (the simulator is not part of
the two scripts): peek the next event; if its `fireTime` exceeds `stopTime`, stop without
executing it; else advance the clock to `fireTime`, pop the event and execute its action.
An empty queue stops the run. -/
def step (sink : ℚ → ℕ) (stopTime : ℚ) (s : SimState) : SimState :=
  match s.queue with
  | [] => { s with state := .Stopped }
  | e :: rest =>
    if stopTime < e.fireTime then { s with state := .Stopped }
    else execute sink e.action { s with clock := e.fireTime, queue := rest }

/-- Modelled from the spec: the driver loop (the simulator is not part of the two
scripts), iterated while the state is `Running` and no action has failed; `fuel` bounds the
number of iterations. -/
def runLoop (sink : ℚ → ℕ) (stopTime : ℚ) : ℕ → SimState → SimState
  | 0, s => s
  | n + 1, s =>
    match s.state, s.failure with
    | .Running, none => runLoop sink stopTime n (step sink stopTime s)
    | _, _ => s

/-- Modelled from the spec: `Simulator::Run()` (the simulator is not part of the two
scripts): `Idle → Running`, then the loop. -/
def run (sink : ℚ → ℕ) (stopTime : ℚ) (fuel : ℕ) (s : SimState) : SimState :=
  runLoop sink stopTime fuel { s with state := .Running }

/-! ## `main` -/

/-- Unsigned 32-bit subtraction `a - b`. -/
def sub32 (a b : ℕ) : ℕ := (a % 2 ^ 32 + 2 ^ 32 - b % 2 ^ 32) % 2 ^ 32

/-- The final statistic of `main`:
`(sink->GetTotalRx() * 8) / (1e6 * (simulationTime))`, the product being taken in
`uint64_t` before the conversion to `double`. -/
def averageThroughput (totalRx : ℕ) (simulationTime : ℚ) : ℚ :=
  ((totalRx * 8 % 2 ^ 64 : ℕ) : ℚ) / (1000000 * simulationTime)

/-- The driver before any event is scheduled; the global `lastTotalRx` starts at 0. -/
def SimState.initial : SimState :=
  { state := .Idle, clock := 0, queue := [], nextSeq := 0, lastTotalRx := 0,
    output := [], failure := none }

/-- What a run of `main` leaves behind. -/
structure ProgramTrace where
  /-- The variables after `cmd.Parse`. -/
  config : ScenarioConfig
  /-- Argument of `networkNodes.Create`. -/
  nodesCreated : ℕ
  /-- Index given to `networkNodes.Get` for `sinkNode`. -/
  sinkNode : ℕ
  /-- Index given to `networkNodes.Get` for `sourceNode`. -/
  sourceNode : ℕ
  /-- Argument of `sinkApp.Start`, in milliseconds. -/
  sinkStart : ℚ
  /-- Argument of `serverApp.Start`, in milliseconds. -/
  sourceStart : ℚ
  /-- Argument of `Simulator::Stop`, in milliseconds. -/
  stopDelay : ℚ
  /-- The driver and the script globals when `main` is left. -/
  sim : SimState
  /-- The printed average, present once `Simulator::Run` has returned. -/
  average : Option ℚ
  deriving DecidableEq, Repr

/-- The part of `main` from the application start times to the final average, for the
variable values `cfg`; `sink t` is the sink total at virtual time `t` (milliseconds). -/
def simulate (cfg : ScenarioConfig) (sink : ℚ → ℕ) (fuel : ℕ) : SimState × Option ℚ :=
  match schedule (Seconds cfg.startMeasureTime)
      (.calculateThroughput cfg.sampleInterval) SimState.initial with
  | .error e => ({ SimState.initial with failure := some e }, none)
  | .ok s1 =>
    match Stop (Seconds (cfg.simulationTime + cfg.startMeasureTime)) s1 with
    | .error e => ({ s1 with failure := some e }, none)
    | .ok stopTime =>
      let s2 := run sink stopTime fuel s1
      (s2, match s2.state, s2.failure with
           | .Stopped, none => some (averageThroughput (sink stopTime) cfg.simulationTime)
           | _, _ => none)

/-- The script `main(argc, argv)`: variable defaults, `cmd.Parse`, node creation, sink and
source selection, application start times, first sample, stop time, run, final average. -/
def main (args : List CmdOption) (sink : ℚ → ℕ) (fuel : ℕ) : ProgramTrace :=
  let cfg := Parse args defaults
  let r := simulate cfg sink fuel
  { config := cfg
    nodesCreated := cfg.numNodes
    sinkNode := 0
    sourceNode := sub32 cfg.numNodes 1
    sinkStart := Seconds 0
    sourceStart := Seconds (cfg.startMeasureTime - cfg.sampleInterval / 1000)
    stopDelay := Seconds (cfg.simulationTime + cfg.startMeasureTime)
    sim := r.1
    average := r.2 }

/-! ## Auxiliary definitions for the statements -/

/-- The driver while exactly one firing of `CalculateThroughput m` is pending at time `t`. -/
def pending (m t : ℚ) (seq last : ℕ) (out : List ThroughputSample) (clock : ℚ) : SimState :=
  { state := .Running, clock := clock, queue := [⟨t, seq, .calculateThroughput m⟩],
    nextSeq := seq + 1, lastTotalRx := last, output := out, failure := none }

/-- The sink readings met by `j` consecutive firings spaced `m` apart, the first at `t`. -/
def readings (sink : ℚ → ℕ) (m : ℚ) : ℚ → ℕ → List (ℚ × ℕ)
  | _, 0 => []
  | t, j + 1 => (t, sink t) :: readings sink m (t + m) j

/-- A sink fed at a constant 10 Mbit/s (1250 bytes per millisecond) from time 0 on, empty
at time 0. -/
def rampSink (t : ℚ) : ℕ := ⌊1250 * t⌋₊

/-- The scenario `sampleInterval = 100 ms`, `simulationTime = 1 s`, `startMeasureTime = 0 s`. -/
def scenarioTenMbps : ScenarioConfig :=
  { defaults with sampleInterval := 100, simulationTime := 1, startMeasureTime := 0 }

/-- The validation rules the design states for a configuration: `numNodes >= 2`,
`sampleInterval > 0`, `simulationTime > 0`, `startMeasureTime >= 0`.  Written from the
design text; the scripts contain no such check. -/
def SpecValid (c : ScenarioConfig) : Prop :=
  2 ≤ c.numNodes ∧ 0 < c.sampleInterval ∧ 0 < c.simulationTime ∧ 0 ≤ c.startMeasureTime

/-- The times and delays `main` and `CalculateThroughput` pass on, in milliseconds: the
sink start, the source start, the first sample, the stop time and the re-arm delay. -/
def ProgramTrace.handedTimes (p : ProgramTrace) : List ℚ :=
  [p.sinkStart, p.sourceStart, Seconds p.config.startMeasureTime, p.stopDelay,
   MilliSeconds p.config.sampleInterval]

/-! ## The node loops of `main`: positions and static routes -/

/-- The conversion of an `int` to `unsigned` that the comparison `i < numNodes` and the
`uint32_t` parameters apply to the loop counter. -/
def toUnsigned (i : ℤ) : ℕ := (i % 2 ^ 32).toNat

/-- The increment `i++` of the 32-bit `int` counter.  Signed overflow is undefined in C++;
it is taken here as two's-complement wrap-around. -/
def incInt (i : ℤ) : ℤ := (i + 1 + 2 ^ 31) % 2 ^ 32 - 2 ^ 31

/-- The values of `i` for which the body of `for (int i = start; i < numNodes; i++)` is
run, in order; `fuel` bounds the number of iterations. -/
def forLoop (numNodes : ℕ) : ℕ → ℤ → List ℤ
  | 0, _ => []
  | fuel + 1, i =>
    if toUnsigned i < numNodes then i :: forLoop numNodes fuel (incInt i) else []

/-- A position `Vector(x, y, z)`. -/
structure Vector where
  x : ℚ
  y : ℚ
  z : ℚ
  deriving DecidableEq, Repr

/-- The list filled by `positionAlloc->Add(Vector(i * distance, 0.0, 0.0))` in the loop
`for (int i = 0; i < numNodes; i++)` (both scripts). -/
def positions (numNodes : ℕ) (distance : ℚ) : List Vector :=
  (forLoop numNodes numNodes 0).map fun i : ℤ => ⟨(i : ℚ) * distance, 0, 0⟩

/-- The C string that the pointer `lit + i` designates, for a string literal `lit`: the
characters of `lit` from offset `i` up to the terminating NUL.  The offsets `0 .. length`
stay inside the array (offset `length` is the NUL itself, the empty string); any other
offset is out of bounds and has no defined value. -/
def cstrPlus (lit : String) (i : ℤ) : Option String :=
  if 0 ≤ i ∧ i ≤ lit.length then some (String.mk (lit.data.drop i.toNat)) else none

/-- One call `staticRouting->AddHostRouteTo(dest, nextHop, interface)` on the static
routing of node `node`; the addresses are kept as the text handed to `Ipv4Address`. -/
structure HostRoute where
  node : ℕ
  dest : String
  nextHop : Option String
  interface : ℕ
  deriving DecidableEq, Repr

/-- The routes installed by the loop `for (int i = 1; i < numNodes; i++)` of
`wifi-udp-stream.cc`:
`AddHostRouteTo(Ipv4Address("10.0.0.1"), Ipv4Address("10.0.0." + i), i)` on the routing of
`interfaces.GetAddress(i)`. -/
def staticRoutes (numNodes : ℕ) : List HostRoute :=
  (forLoop numNodes numNodes 1).map fun i : ℤ =>
    { node := toUnsigned i, dest := "10.0.0.1", nextHop := cstrPlus "10.0.0." i,
      interface := toUnsigned i }

/-- The `int` whose conversion to `unsigned` is `k`. -/
def ofUnsigned (k : ℕ) : ℤ := if k < 2 ^ 31 then (k : ℤ) else (k : ℤ) - 2 ^ 32

/-! ## Sampler lemmas -/

theorem sub64_of_le {a b : ℕ} (hab : b ≤ a) (ha : a < 2 ^ 64) : sub64 a b = a - b := by
  have hb : b < 2 ^ 64 := lt_of_le_of_lt hab ha
  unfold sub64
  rw [Nat.mod_eq_of_lt hb]
  have h1 : a + 2 ^ 64 - b = (a - b) + 2 ^ 64 := by omega
  rw [h1, Nat.add_mod_right, Nat.mod_eq_of_lt]
  omega

theorem sub32_of_le {a b : ℕ} (hab : b ≤ a) (ha : a < 2 ^ 32) : sub32 a b = a - b := by
  have hb : b < 2 ^ 32 := lt_of_le_of_lt hab ha
  unfold sub32
  rw [Nat.mod_eq_of_lt hb, Nat.mod_eq_of_lt ha]
  have h1 : a + 2 ^ 32 - b = (a - b) + 2 ^ 32 := by omega
  rw [h1, Nat.add_mod_right, Nat.mod_eq_of_lt]
  omega

theorem chain_le_getLast (ys : List ℕ) (a : ℕ) (hc : List.Chain (· ≤ ·) a ys) :
    a ≤ ys.getLastD a := by
  induction ys generalizing a with
  | nil => simp
  | cons y ys ih =>
    simp only [List.chain_cons] at hc
    rw [List.getLastD_cons]
    exact le_trans hc.1 (ih y hc.2)

theorem fireAll_snd (m : ℚ) (rs : List (ℚ × ℕ)) (init : ℕ) :
    (fireAll m rs init).2 = (rs.map Prod.snd).getLastD init := by
  induction rs generalizing init with
  | nil => rfl
  | cons r rest ih =>
    obtain ⟨t, x⟩ := r
    simp only [fireAll, CalculateThroughput, List.map_cons]
    rw [ih, List.getLastD_cons]

theorem fireAll_sum (m : ℚ) (rs : List (ℚ × ℕ)) (init : ℕ)
    (hmono : List.Chain (· ≤ ·) init (rs.map Prod.snd))
    (h64 : ∀ r ∈ rs, r.2 < 2 ^ 64) :
    ((fireAll m rs init).1.map ThroughputSample.bytesSinceLast).sum
      = (fireAll m rs init).2 - init := by
  induction rs generalizing init with
  | nil => simp [fireAll]
  | cons r rest ih =>
    obtain ⟨t, x⟩ := r
    simp only [List.map_cons, List.chain_cons] at hmono
    have hx : x < 2 ^ 64 := h64 (t, x) (List.mem_cons_self _ _)
    have hrest := ih x hmono.2 (fun r hr => h64 r (List.mem_cons_of_mem _ hr))
    have hge : x ≤ (fireAll m rest x).2 := by
      rw [fireAll_snd]
      exact chain_le_getLast _ _ hmono.2
    simp only [fireAll, CalculateThroughput, List.map_cons, List.sum_cons]
    rw [hrest, sub64_of_le hmono.1 hx]
    omega

/-! ## Driver lemmas -/

theorem step_pending_stop (sink : ℚ → ℕ) (T m t : ℚ) (seq last : ℕ)
    (out : List ThroughputSample) (c : ℚ) (h : T < t) :
    step sink T (pending m t seq last out c)
      = { pending m t seq last out c with state := .Stopped } := by
  simp [step, pending, h]

theorem step_pending_fire (sink : ℚ → ℕ) (T m t : ℚ) (seq last : ℕ)
    (out : List ThroughputSample) (c : ℚ) (h : t ≤ T) (hm : 0 ≤ m) :
    step sink T (pending m t seq last out c)
      = pending m (t + m) (seq + 1) (sink t)
          (out ++ [(CalculateThroughput m t (sink t) last).sample]) t := by
  simp [step, pending, not_lt.mpr h, execute, schedule, MilliSeconds, CalculateThroughput,
    not_lt.mpr hm, EventQueue.insert]

theorem step_pending_fail (sink : ℚ → ℕ) (T m t : ℚ) (seq last : ℕ)
    (out : List ThroughputSample) (c : ℚ) (h : t ≤ T) (hm : m < 0) :
    step sink T (pending m t seq last out c)
      = { state := .Running, clock := t, queue := [], nextSeq := seq + 1,
          lastTotalRx := sink t,
          output := out ++ [(CalculateThroughput m t (sink t) last).sample],
          failure := some .InvalidDelay } := by
  simp [step, pending, not_lt.mpr h, execute, schedule, MilliSeconds, CalculateThroughput, hm]

theorem runLoop_not_running (sink : ℚ → ℕ) (T : ℚ) (n : ℕ) (s : SimState)
    (h : s.state ≠ .Running ∨ s.failure ≠ none) : runLoop sink T n s = s := by
  cases n with
  | zero => rfl
  | succ n =>
    unfold runLoop
    split
    · next h1 h2 => rcases h with h | h <;> simp_all
    · rfl

theorem runLoop_pending_succ (sink : ℚ → ℕ) (T m t : ℚ) (seq last : ℕ)
    (out : List ThroughputSample) (c : ℚ) (n : ℕ) :
    runLoop sink T (n + 1) (pending m t seq last out c)
      = runLoop sink T n (step sink T (pending m t seq last out c)) := by
  conv_lhs => unfold runLoop
  simp [pending]

theorem runLoop_running_succ (sink : ℚ → ℕ) (T : ℚ) (n : ℕ) (s : SimState)
    (h1 : s.state = .Running) (h2 : s.failure = none) :
    runLoop sink T (n + 1) s = runLoop sink T n (step sink T s) := by
  conv_lhs => unfold runLoop
  simp [h1, h2]

theorem runLoop_add (sink : ℚ → ℕ) (T : ℚ) (a b : ℕ) (s : SimState) :
    runLoop sink T (a + b) s = runLoop sink T b (runLoop sink T a s) := by
  induction a generalizing s with
  | zero => simp [runLoop]
  | succ a ih =>
    by_cases h : s.state = .Running ∧ s.failure = none
    · rw [show a + 1 + b = (a + b) + 1 by omega,
        runLoop_running_succ sink T _ s h.1 h.2, runLoop_running_succ sink T _ s h.1 h.2, ih]
    · have h' : s.state ≠ .Running ∨ s.failure ≠ none := by
        by_cases h1 : s.state = .Running
        · exact Or.inr (fun h2 => h ⟨h1, h2⟩)
        · exact Or.inl h1
      rw [runLoop_not_running sink T _ s h', runLoop_not_running sink T _ s h',
        runLoop_not_running sink T _ s h']

theorem runLoop_fire (sink : ℚ → ℕ) (T m : ℚ) (hm : 0 ≤ m) (j : ℕ) :
    ∀ (t : ℚ) (seq last : ℕ) (out : List ThroughputSample) (c : ℚ),
      (∀ i : ℕ, i < j → t + i * m ≤ T) →
      ∃ c', runLoop sink T j (pending m t seq last out c)
        = pending m (t + j * m) (seq + j) (fireAll m (readings sink m t j) last).2
            (out ++ (fireAll m (readings sink m t j) last).1) c' := by
  induction j with
  | zero =>
    intro t seq last out c _
    exact ⟨c, by simp [runLoop, readings, fireAll]⟩
  | succ j ih =>
    intro t seq last out c h
    have h0 : t ≤ T := by simpa using h 0 (Nat.succ_pos j)
    have hnext : ∀ i : ℕ, i < j → (t + m) + i * m ≤ T := by
      intro i hi
      have := h (i + 1) (Nat.succ_lt_succ hi)
      push_cast at this
      linarith
    obtain ⟨c', hc'⟩ := ih (t + m) (seq + 1) (sink t)
      (out ++ [(CalculateThroughput m t (sink t) last).sample]) t hnext
    refine ⟨c', ?_⟩
    rw [runLoop_pending_succ, step_pending_fire sink T m t seq last out c h0 hm, hc']
    have e1 : t + m + (j : ℚ) * m = t + ((j + 1 : ℕ) : ℚ) * m := by push_cast; ring
    have e2 : seq + 1 + j = seq + (j + 1) := by omega
    simp only [readings, fireAll, CalculateThroughput, e1, e2, List.append_assoc,
      List.singleton_append]

/-- Closed form of the loop while one sampler is pending: `N` is the number of firings that
fall within the horizon `T`. -/
theorem runLoop_pending (sink : ℚ → ℕ) (T m : ℚ) (hm : 0 ≤ m) (t : ℚ) (seq last : ℕ)
    (out : List ThroughputSample) (c : ℚ) (N : ℕ) (hN : T < t + N * m)
    (hlt : ∀ i : ℕ, i < N → t + i * m ≤ T) (n : ℕ) :
    (runLoop sink T n (pending m t seq last out c)).output
        = out ++ (fireAll m (readings sink m t (min n N)) last).1
      ∧ (runLoop sink T n (pending m t seq last out c)).failure = none
      ∧ (runLoop sink T n (pending m t seq last out c)).queue
          = [⟨t + (min n N : ℕ) * m, seq + min n N, .calculateThroughput m⟩]
      ∧ (N < n → (runLoop sink T n (pending m t seq last out c)).state = .Stopped)
      ∧ (n ≤ N → (runLoop sink T n (pending m t seq last out c)).state = .Running) := by
  by_cases hn : n ≤ N
  · obtain ⟨c', hc'⟩ := runLoop_fire sink T m hm n t seq last out c
      (fun i hi => hlt i (lt_of_lt_of_le hi hn))
    rw [hc', Nat.min_eq_left hn]
    refine ⟨rfl, rfl, rfl, fun h => absurd hn (not_le.mpr h), fun _ => rfl⟩
  · have hn' : N < n := not_le.mp hn
    obtain ⟨k, rfl⟩ : ∃ k, n = N + (k + 1) := ⟨n - N - 1, by omega⟩
    obtain ⟨c', hc'⟩ := runLoop_fire sink T m hm N t seq last out c hlt
    rw [runLoop_add, hc', runLoop_pending_succ, step_pending_stop sink T m _ _ _ _ _ hN,
      runLoop_not_running sink T k _ (Or.inl (by simp)),
      Nat.min_eq_right (le_of_lt hn')]
    refine ⟨rfl, rfl, rfl, fun _ => rfl, fun h => absurd h hn⟩

/-- A positive interval reaches any horizon after finitely many firings. -/
theorem exists_horizon (t T m : ℚ) (hm : 0 < m) :
    ∃ N : ℕ, T < t + N * m ∧ ∀ i : ℕ, i < N → t + i * m ≤ T := by
  have hex : ∃ n : ℕ, T < t + n * m := by
    obtain ⟨n, hn⟩ := exists_nat_gt ((T - t) / m)
    refine ⟨n, ?_⟩
    rw [div_lt_iff₀ hm] at hn
    linarith
  classical
  refine ⟨Nat.find hex, Nat.find_spec hex, fun i hi => ?_⟩
  exact not_lt.mp (Nat.find_min hex hi)

/-! ## The samples of consecutive firings -/

theorem fireAll_readings_length (sink : ℚ → ℕ) (m : ℚ) (j : ℕ) :
    ∀ (t : ℚ) (last : ℕ), (fireAll m (readings sink m t j) last).1.length = j := by
  induction j with
  | zero => intro t last; rfl
  | succ j ih => intro t last; simp [readings, fireAll, ih]

theorem fireAll_readings_zero (sink : ℚ → ℕ) (m t : ℚ) (last j : ℕ) (hj : 0 < j) :
    (fireAll m (readings sink m t j) last).1[0]?
      = some (CalculateThroughput m t (sink t) last).sample := by
  cases j with
  | zero => exact absurd hj (lt_irrefl 0)
  | succ j => simp [readings, fireAll]

theorem fireAll_readings_succ (sink : ℚ → ℕ) (m : ℚ) (j : ℕ) :
    ∀ (t : ℚ) (last k : ℕ), k + 1 < j →
      (fireAll m (readings sink m t j) last).1[k + 1]?
        = some (CalculateThroughput m (t + ((k + 1 : ℕ) : ℚ) * m)
            (sink (t + ((k + 1 : ℕ) : ℚ) * m)) (sink (t + (k : ℚ) * m))).sample := by
  induction j with
  | zero => intro t last k hk; exact absurd hk (Nat.not_lt_zero _)
  | succ j ih =>
    intro t last k hk
    have hk' : k < j := Nat.lt_of_succ_lt_succ hk
    simp only [readings, fireAll, List.getElem?_cons_succ]
    cases k with
    | zero =>
      rw [fireAll_readings_zero sink m (t + m) _ j hk']
      simp [CalculateThroughput]
    | succ k =>
      rw [ih (t + m) _ k hk']
      have e1 : t + m + ((k + 1 : ℕ) : ℚ) * m = t + ((k + 1 + 1 : ℕ) : ℚ) * m := by
        push_cast; ring
      have e2 : t + m + (k : ℚ) * m = t + ((k + 1 : ℕ) : ℚ) * m := by push_cast; ring
      rw [e1, e2]

/-- Every sample of `j` consecutive firings carries the time of its firing and the
interval it was called with. -/
theorem fireAll_readings_get (sink : ℚ → ℕ) (m t : ℚ) (last j k : ℕ)
    (x : ThroughputSample) (hx : (fireAll m (readings sink m t j) last).1[k]? = some x) :
    k < j ∧ x.timestamp = t + (k : ℚ) * m ∧ x.intervalMillis = m := by
  have hk : k < j := by
    have := (List.getElem?_eq_some_iff.mp hx).1
    rwa [fireAll_readings_length] at this
  refine ⟨hk, ?_⟩
  cases k with
  | zero =>
    rw [fireAll_readings_zero sink m t last j hk] at hx
    cases hx
    simp [CalculateThroughput]
  | succ k =>
    rw [fireAll_readings_succ sink m j t last k hk] at hx
    cases hx
    simp [CalculateThroughput]

/-! ## The shape of every run -/

theorem runLoop_shape_nonneg (sink : ℚ → ℕ) (T m : ℚ) (hm : 0 ≤ m) (n : ℕ) :
    ∀ (t : ℚ) (seq last : ℕ) (out : List ThroughputSample) (c : ℚ),
      ∃ j, j ≤ n ∧ (∀ i : ℕ, i < j → t + i * m ≤ T)
        ∧ (runLoop sink T n (pending m t seq last out c)).output
            = out ++ (fireAll m (readings sink m t j) last).1
        ∧ (runLoop sink T n (pending m t seq last out c)).failure = none := by
  induction n with
  | zero =>
    intro t seq last out c
    exact ⟨0, le_refl 0, fun i hi => absurd hi (Nat.not_lt_zero i),
      by simp [runLoop, readings, fireAll, pending], rfl⟩
  | succ n ih =>
    intro t seq last out c
    rw [runLoop_pending_succ]
    by_cases h : T < t
    · rw [step_pending_stop sink T m t seq last out c h,
        runLoop_not_running sink T n _ (Or.inl (by simp))]
      exact ⟨0, Nat.zero_le _, fun i hi => absurd hi (Nat.not_lt_zero i),
        by simp [readings, fireAll, pending], rfl⟩
    · have h0 : t ≤ T := not_lt.mp h
      rw [step_pending_fire sink T m t seq last out c h0 hm]
      obtain ⟨j, hj, hle, hout, hf⟩ := ih (t + m) (seq + 1) (sink t)
        (out ++ [(CalculateThroughput m t (sink t) last).sample]) t
      refine ⟨j + 1, Nat.succ_le_succ hj, ?_, ?_, hf⟩
      · intro i hi
        cases i with
        | zero => simpa using h0
        | succ i =>
          have := hle i (Nat.lt_of_succ_lt_succ hi)
          push_cast
          linarith
      · rw [hout]
        simp [readings, fireAll, CalculateThroughput]

theorem runLoop_shape_neg (sink : ℚ → ℕ) (T m : ℚ) (hm : m < 0) (n : ℕ)
    (t : ℚ) (seq last : ℕ) (out : List ThroughputSample) (c : ℚ) :
    ∃ j, j ≤ n ∧ (∀ i : ℕ, i < j → t + i * m ≤ T)
      ∧ (runLoop sink T n (pending m t seq last out c)).output
          = out ++ (fireAll m (readings sink m t j) last).1
      ∧ ((runLoop sink T n (pending m t seq last out c)).failure = none
          ∨ (runLoop sink T n (pending m t seq last out c)).failure
              = some .InvalidDelay) := by
  cases n with
  | zero =>
    exact ⟨0, le_refl 0, fun i hi => absurd hi (Nat.not_lt_zero i),
      by simp [runLoop, readings, fireAll, pending], Or.inl rfl⟩
  | succ n =>
    rw [runLoop_pending_succ]
    by_cases h : T < t
    · rw [step_pending_stop sink T m t seq last out c h,
        runLoop_not_running sink T n _ (Or.inl (by simp))]
      exact ⟨0, Nat.zero_le _, fun i hi => absurd hi (Nat.not_lt_zero i),
        by simp [readings, fireAll, pending], Or.inl rfl⟩
    · have h0 : t ≤ T := not_lt.mp h
      rw [step_pending_fail sink T m t seq last out c h0 hm,
        runLoop_not_running sink T n _ (Or.inr (by simp))]
      refine ⟨1, Nat.succ_le_succ (Nat.zero_le _), ?_, by simp [readings, fireAll], Or.inr rfl⟩
      intro i hi
      have : i = 0 := by omega
      subst this
      simpa using h0

/-! ## `simulate` in terms of the loop -/

theorem simulate_fst_of_nonneg (cfg : ScenarioConfig) (sink : ℚ → ℕ) (fuel : ℕ)
    (h1 : 0 ≤ cfg.startMeasureTime) (h2 : 0 ≤ cfg.simulationTime + cfg.startMeasureTime) :
    (simulate cfg sink fuel).1
      = runLoop sink (Seconds (cfg.simulationTime + cfg.startMeasureTime)) fuel
          (pending cfg.sampleInterval (Seconds cfg.startMeasureTime) 0 0 [] 0) := by
  have h1' : ¬ cfg.startMeasureTime * 1000 < 0 := not_lt.mpr (by linarith)
  have h2' : ¬ (cfg.simulationTime + cfg.startMeasureTime) * 1000 < 0 :=
    not_lt.mpr (by linarith)
  simp [simulate, schedule, Stop, Seconds, SimState.initial, run, pending,
    EventQueue.insert, h1', h2']

theorem simulate_fst_of_neg_start (cfg : ScenarioConfig) (sink : ℚ → ℕ) (fuel : ℕ)
    (h1 : cfg.startMeasureTime < 0) :
    (simulate cfg sink fuel).1 = { SimState.initial with failure := some .InvalidDelay } := by
  have h1' : cfg.startMeasureTime * 1000 < 0 := by linarith
  simp [simulate, schedule, Seconds, h1']

theorem simulate_fst_of_neg_stop (cfg : ScenarioConfig) (sink : ℚ → ℕ) (fuel : ℕ)
    (h1 : 0 ≤ cfg.startMeasureTime) (h2 : cfg.simulationTime + cfg.startMeasureTime < 0) :
    (simulate cfg sink fuel).1.output = []
      ∧ (simulate cfg sink fuel).1.failure = some .InvalidDelay
      ∧ (simulate cfg sink fuel).1.state = .Idle := by
  have h1' : ¬ cfg.startMeasureTime * 1000 < 0 := not_lt.mpr (by linarith)
  have h2' : (cfg.simulationTime + cfg.startMeasureTime) * 1000 < 0 := by linarith
  simp [simulate, schedule, Stop, Seconds, SimState.initial, h1', h2']

/-- Every run of `simulate` prints the samples of `j` consecutive firings, all of them
within the horizon, and fails with nothing else than `InvalidDelay`. -/
theorem simulate_shape (cfg : ScenarioConfig) (sink : ℚ → ℕ) (fuel : ℕ) :
    ∃ j, j ≤ fuel
      ∧ (∀ i : ℕ, i < j → Seconds cfg.startMeasureTime + i * cfg.sampleInterval
            ≤ Seconds (cfg.simulationTime + cfg.startMeasureTime))
      ∧ (simulate cfg sink fuel).1.output
          = (fireAll cfg.sampleInterval
              (readings sink cfg.sampleInterval (Seconds cfg.startMeasureTime) j) 0).1
      ∧ ((simulate cfg sink fuel).1.failure = none
          ∨ (simulate cfg sink fuel).1.failure = some .InvalidDelay) := by
  by_cases h1 : cfg.startMeasureTime < 0
  · rw [simulate_fst_of_neg_start cfg sink fuel h1]
    exact ⟨0, Nat.zero_le _, fun i hi => absurd hi (Nat.not_lt_zero i),
      by simp [readings, fireAll, SimState.initial], Or.inr rfl⟩
  · have h1' : 0 ≤ cfg.startMeasureTime := not_lt.mp h1
    by_cases h2 : cfg.simulationTime + cfg.startMeasureTime < 0
    · obtain ⟨ho, hf, _⟩ := simulate_fst_of_neg_stop cfg sink fuel h1' h2
      exact ⟨0, Nat.zero_le _, fun i hi => absurd hi (Nat.not_lt_zero i),
        by simp [readings, fireAll, ho], Or.inr hf⟩
    · rw [simulate_fst_of_nonneg cfg sink fuel h1' (not_lt.mp h2)]
      by_cases hm : 0 ≤ cfg.sampleInterval
      · obtain ⟨j, hj, hle, hout, hf⟩ := runLoop_shape_nonneg sink
          (Seconds (cfg.simulationTime + cfg.startMeasureTime)) cfg.sampleInterval hm fuel
          (Seconds cfg.startMeasureTime) 0 0 [] 0
        exact ⟨j, hj, hle, by simpa using hout, Or.inl hf⟩
      · obtain ⟨j, hj, hle, hout, hf⟩ := runLoop_shape_neg sink
          (Seconds (cfg.simulationTime + cfg.startMeasureTime)) cfg.sampleInterval
          (not_le.mp hm) fuel (Seconds cfg.startMeasureTime) 0 0 [] 0
        exact ⟨j, hj, hle, by simpa using hout, hf⟩

theorem mem_insert_self (e : Event) (q : List Event) : e ∈ EventQueue.insert e q := by
  induction q with
  | nil => simp [EventQueue.insert]
  | cons x xs ih =>
    unfold EventQueue.insert
    split
    · exact List.mem_cons_of_mem _ ih
    · exact List.mem_cons_self _ _

/-! ## Claims about the sampler -/

/-- C1: for every previous total `last`, every current sink total `cur ≥ last` (an unsigned
64-bit value) and every sample interval `m > 0` in milliseconds, one firing of
`CalculateThroughput` reports the rate `(cur - last) * 8 / (m * 1000)` Mbit/s. -/
theorem C1_firing_reports_rate (last cur : ℕ) (m now : ℚ)
    (hle : last ≤ cur) (h64 : cur < 2 ^ 64) (hm : 0 < m) :
    (CalculateThroughput m now cur last).sample.rateMbps
      = ((cur : ℚ) - (last : ℚ)) * 8 / (m * 1000) := by
  have _ := hm
  simp only [CalculateThroughput]
  rw [sub64_of_le hle h64, Nat.cast_sub hle]

theorem C1_firing_reports_rate_witness :
    (CalculateThroughput 100 5000 250000 125000).sample.rateMbps
      = (((250000 : ℕ) : ℚ) - ((125000 : ℕ) : ℚ)) * 8 / (100 * 1000) :=
  C1_firing_reports_rate 125000 250000 100 5000 (by decide) (by norm_num) (by norm_num)

/-- C2: over a monotonically non-decreasing sequence of sink readings that starts at or
above the initial `lastTotalRx`, the per-sample byte deltas of all firings add up to the
total read at the last firing minus the initial total (and the global `lastTotalRx` ends
at that last reading, which is at least the initial total): no byte is counted twice or
dropped. -/
theorem C2_deltas_telescope (m : ℚ) (rs : List (ℚ × ℕ)) (init : ℕ)
    (hmono : List.Chain (· ≤ ·) init (rs.map Prod.snd))
    (h64 : ∀ r ∈ rs, r.2 < 2 ^ 64) :
    (((fireAll m rs init).1.map ThroughputSample.bytesSinceLast).sum
        = (rs.map Prod.snd).getLastD init - init)
      ∧ (fireAll m rs init).2 = (rs.map Prod.snd).getLastD init
      ∧ init ≤ (rs.map Prod.snd).getLastD init :=
  ⟨by rw [← fireAll_snd m rs init]; exact fireAll_sum m rs init hmono h64,
   fireAll_snd m rs init, chain_le_getLast _ _ hmono⟩

theorem C2_deltas_telescope_witness :
    (((fireAll 100 [(0, 10), (100, 10), (200, 1510)] 4).1.map
          ThroughputSample.bytesSinceLast).sum
        = ([((0 : ℚ), 10), (100, 10), (200, 1510)].map Prod.snd).getLastD 4 - 4)
      ∧ (fireAll 100 [(0, 10), (100, 10), (200, 1510)] 4).2
          = ([((0 : ℚ), 10), (100, 10), (200, 1510)].map Prod.snd).getLastD 4
      ∧ 4 ≤ ([((0 : ℚ), 10), (100, 10), (200, 1510)].map Prod.snd).getLastD 4 :=
  C2_deltas_telescope 100 [(0, 10), (100, 10), (200, 1510)] 4
    (by simp) (by simp)

/-! ## Claims about the run -/

theorem rampSink_step (t : ℚ) (ht : 0 ≤ t) : rampSink (t + 100) = rampSink t + 125000 := by
  unfold rampSink
  have h : (1250 : ℚ) * (t + 100) = 1250 * t + ((125000 : ℕ) : ℚ) := by push_cast; ring
  rw [h, Nat.floor_add_nat (by positivity)]

theorem sink_every_100 (sink : ℚ → ℕ)
    (hinc : ∀ t : ℚ, 0 ≤ t → sink (t + 100) = sink t + 125000) (k : ℕ) :
    sink ((k : ℚ) * 100) = sink 0 + 125000 * k := by
  induction k with
  | zero => simp
  | succ k ih =>
    have e : ((k + 1 : ℕ) : ℚ) * 100 = (k : ℚ) * 100 + 100 := by push_cast; ring
    rw [e, hinc _ (by positivity), ih]
    ring

/-- C3 (as stated, refuted): with `sampleInterval = 100 ms`, `simulationTime = 1 s`,
`startMeasureTime = 0 s` and a sink counter that grows by exactly 125000 bytes every
100 ms but is empty at time 0, the first printed sample is 0 Mbit/s, not 10. -/
theorem C3_first_sample_counterexample :
    (∀ t : ℚ, 0 ≤ t → rampSink (t + 100) = rampSink t + 125000)
      ∧ (simulate scenarioTenMbps rampSink 12).1.output.map ThroughputSample.rateMbps
          = [0, 10, 10, 10, 10, 10, 10, 10, 10, 10, 10] := by
  refine ⟨rampSink_step, ?_⟩
  rw [simulate_fst_of_nonneg scenarioTenMbps rampSink 12
    (by norm_num [scenarioTenMbps, defaults]) (by norm_num [scenarioTenMbps, defaults])]
  have h := (runLoop_pending rampSink (Seconds (scenarioTenMbps.simulationTime
      + scenarioTenMbps.startMeasureTime)) scenarioTenMbps.sampleInterval
    (by norm_num [scenarioTenMbps, defaults]) (Seconds scenarioTenMbps.startMeasureTime)
    0 0 [] 0 11 (by norm_num [scenarioTenMbps, defaults, Seconds])
    (by
      intro i hi
      have : (i : ℚ) ≤ 10 := by exact_mod_cast Nat.le_of_lt_succ hi
      norm_num [scenarioTenMbps, defaults, Seconds]
      linarith) 12).1
  rw [h]
  norm_num [scenarioTenMbps, defaults, Seconds, readings, fireAll, CalculateThroughput,
    rampSink, sub64]

/-- C3 (amended): with `sampleInterval = 100 ms`, `simulationTime = 1 s`,
`startMeasureTime = 0 s` and a sink counter that grows by exactly 125000 bytes every
100 ms, every sample after the first reports 10 Mbit/s; the first sample, taken at
`startMeasureTime` against `lastTotalRx = 0`, reports the whole sink total of that moment,
`sink 0 * 8 / 100000` Mbit/s.  With enough fuel the run prints 11 samples. -/
theorem C3_ten_mbps_after_first_sample (sink : ℚ → ℕ)
    (hinc : ∀ t : ℚ, 0 ≤ t → sink (t + 100) = sink t + 125000)
    (h64 : sink 1000 < 2 ^ 64) (fuel : ℕ) :
    (11 < fuel → (simulate scenarioTenMbps sink fuel).1.output.length = 11)
      ∧ ∀ (k : ℕ) (x : ThroughputSample),
          (simulate scenarioTenMbps sink fuel).1.output[k]? = some x →
            (k = 0 → x.rateMbps = (sink 0 : ℚ) * 8 / 100000) ∧ (0 < k → x.rateMbps = 10) := by
  have hs := sink_every_100 sink hinc
  have h1000 : sink 1000 = sink 0 + 1250000 := by
    have := hs 10
    norm_num at this
    exact this
  constructor
  · intro hfuel
    rw [simulate_fst_of_nonneg scenarioTenMbps sink fuel
      (by norm_num [scenarioTenMbps, defaults]) (by norm_num [scenarioTenMbps, defaults])]
    have h := (runLoop_pending sink (Seconds (scenarioTenMbps.simulationTime
        + scenarioTenMbps.startMeasureTime)) scenarioTenMbps.sampleInterval
      (by norm_num [scenarioTenMbps, defaults]) (Seconds scenarioTenMbps.startMeasureTime)
      0 0 [] 0 11 (by norm_num [scenarioTenMbps, defaults, Seconds])
      (by
        intro i hi
        have : (i : ℚ) ≤ 10 := by exact_mod_cast Nat.le_of_lt_succ hi
        norm_num [scenarioTenMbps, defaults, Seconds]
        linarith) fuel).1
    rw [h, List.nil_append, fireAll_readings_length, Nat.min_eq_right (le_of_lt hfuel)]
  · intro k x hx
    obtain ⟨j, _, hle, hout, _⟩ := simulate_shape scenarioTenMbps sink fuel
    rw [hout] at hx
    have hkj : k < j := (fireAll_readings_get sink _ _ 0 j k x hx).1
    have hk10 : k ≤ 10 := by
      have := hle k hkj
      norm_num [scenarioTenMbps, defaults, Seconds] at this
      have h' : (k : ℚ) ≤ 10 := by linarith
      exact_mod_cast h'
    have ht0 : Seconds scenarioTenMbps.startMeasureTime = 0 := by
      norm_num [scenarioTenMbps, defaults, Seconds]
    have hm : scenarioTenMbps.sampleInterval = 100 := by
      norm_num [scenarioTenMbps, defaults]
    rw [ht0, hm] at hx
    cases k with
    | zero =>
      rw [fireAll_readings_zero sink 100 0 0 j hkj] at hx
      cases hx
      refine ⟨fun _ => ?_, fun h => absurd h (lt_irrefl 0)⟩
      have h0 : sink 0 < 2 ^ 64 := by omega
      simp only [CalculateThroughput]
      rw [sub64_of_le (Nat.zero_le _) h0]
      norm_num
    | succ k =>
      rw [fireAll_readings_succ sink 100 j 0 0 k hkj] at hx
      cases hx
      refine ⟨fun h => absurd h (Nat.succ_ne_zero k), fun _ => ?_⟩
      have e1 := hs (k + 1)
      have e2 := hs k
      simp only [CalculateThroughput, zero_add]
      rw [e1, e2, sub64_of_le (by omega) (by omega)]
      have : sink 0 + 125000 * (k + 1) - (sink 0 + 125000 * k) = 125000 := by omega
      rw [this]
      norm_num

theorem C3_ten_mbps_after_first_sample_witness :
    (11 < 12 → (simulate scenarioTenMbps rampSink 12).1.output.length = 11)
      ∧ ∀ (k : ℕ) (x : ThroughputSample),
          (simulate scenarioTenMbps rampSink 12).1.output[k]? = some x →
            (k = 0 → x.rateMbps = (rampSink 0 : ℚ) * 8 / 100000)
              ∧ (0 < k → x.rateMbps = 10) :=
  C3_ten_mbps_after_first_sample rampSink rampSink_step
    (by norm_num [rampSink]) 12

/-- C4: for every sample interval `m > 0`, a firing of `CalculateThroughput` at virtual
time `t` leaves a new firing in the queue at exactly `t + m` milliseconds and raises no
error; hence the `k`-th printed sample (`k = 0, 1, ...`) was taken at
`startMeasureTime + k * m`, it is taken whenever that time lies within the horizon and
the fuel allows `k + 1` iterations, and the interval used as the divisor of the rate is
the spacing between consecutive samples: the rate printed by a sample is the byte delta
since the previous sample times 8, divided by 1000 times the time elapsed since that
previous sample (for the first sample, by 1000 times the interval after which the next
one fires).  In milliseconds the `k`-th sample is at `startMeasureTime * 1000 + k * m`. -/
theorem C4_sampler_rearms_after_interval (cfg : ScenarioConfig) (sink : ℚ → ℕ)
    (hm : 0 < cfg.sampleInterval) :
    (∀ s : SimState,
        (execute sink (.calculateThroughput cfg.sampleInterval) s).failure = s.failure
          ∧ (⟨s.clock + cfg.sampleInterval, s.nextSeq,
                .calculateThroughput cfg.sampleInterval⟩ : Event)
              ∈ (execute sink (.calculateThroughput cfg.sampleInterval) s).queue)
      ∧ (∀ (fuel k : ℕ) (x : ThroughputSample),
          (simulate cfg sink fuel).1.output[k]? = some x →
            x.timestamp = Seconds cfg.startMeasureTime + k * cfg.sampleInterval
              ∧ x.intervalMillis = cfg.sampleInterval)
      ∧ (∀ (fuel k : ℕ) (x y : ThroughputSample),
          (simulate cfg sink fuel).1.output[k]? = some x →
          (simulate cfg sink fuel).1.output[k + 1]? = some y →
            y.timestamp - x.timestamp = y.intervalMillis)
      ∧ (∀ (fuel k : ℕ), 0 ≤ cfg.startMeasureTime → k < fuel →
          Seconds cfg.startMeasureTime + k * cfg.sampleInterval
              ≤ Seconds (cfg.simulationTime + cfg.startMeasureTime) →
            ∃ x, (simulate cfg sink fuel).1.output[k]? = some x)
      ∧ (∀ s : SimState,
          (execute sink (.calculateThroughput cfg.sampleInterval) s).output
            = s.output ++
                [{ timestamp := s.clock
                   bytesSinceLast := sub64 (sink s.clock) s.lastTotalRx
                   intervalMillis := cfg.sampleInterval
                   rateMbps := (sub64 (sink s.clock) s.lastTotalRx : ℚ) * 8
                     / (cfg.sampleInterval * 1000) }])
      ∧ (∀ (fuel : ℕ) (x : ThroughputSample),
          (simulate cfg sink fuel).1.output[0]? = some x →
            x.rateMbps = (sub64 (sink x.timestamp) 0 : ℚ) * 8 / (cfg.sampleInterval * 1000))
      ∧ (∀ (fuel k : ℕ) (x y : ThroughputSample),
          (simulate cfg sink fuel).1.output[k]? = some x →
          (simulate cfg sink fuel).1.output[k + 1]? = some y →
            y.bytesSinceLast = sub64 (sink y.timestamp) (sink x.timestamp)
              ∧ y.rateMbps = (sub64 (sink y.timestamp) (sink x.timestamp) : ℚ) * 8
                  / ((y.timestamp - x.timestamp) * 1000))
      ∧ (∀ (fuel k : ℕ) (x : ThroughputSample),
          (simulate cfg sink fuel).1.output[k]? = some x →
            x.timestamp = cfg.startMeasureTime * 1000 + k * cfg.sampleInterval
              ∧ x.seconds = cfg.startMeasureTime + k * cfg.sampleInterval / 1000) := by
  have hget : ∀ (fuel k : ℕ) (x : ThroughputSample),
      (simulate cfg sink fuel).1.output[k]? = some x →
        x.timestamp = Seconds cfg.startMeasureTime + k * cfg.sampleInterval
          ∧ x.intervalMillis = cfg.sampleInterval := by
    intro fuel k x hx
    obtain ⟨j, _, _, hout, _⟩ := simulate_shape cfg sink fuel
    rw [hout] at hx
    exact (fireAll_readings_get sink _ _ 0 j k x hx).2
  have hneg : ¬ cfg.sampleInterval < 0 := not_lt.mpr (le_of_lt hm)
  refine ⟨?_, hget, ?_, ?_, ?_, ?_, ?_, ?_⟩
  · intro s
    simp only [execute, schedule, MilliSeconds, CalculateThroughput, hneg, if_false]
    exact ⟨trivial, mem_insert_self _ _⟩
  · intro fuel k x y hx hy
    obtain ⟨hx1, _⟩ := hget fuel k x hx
    obtain ⟨hy1, hy2⟩ := hget fuel (k + 1) y hy
    rw [hx1, hy1, hy2]
    push_cast
    ring
  · intro fuel k hstart hk hle
    have hT : 0 ≤ cfg.simulationTime + cfg.startMeasureTime := by
      have h1 : (0 : ℚ) ≤ k * cfg.sampleInterval :=
        mul_nonneg (Nat.cast_nonneg k) (le_of_lt hm)
      have h2 : (0 : ℚ) ≤ Seconds cfg.startMeasureTime := by
        unfold Seconds; linarith
      have h3 : 0 ≤ Seconds (cfg.simulationTime + cfg.startMeasureTime) := by linarith
      unfold Seconds at h3
      linarith
    obtain ⟨N, hN, hlt⟩ := exists_horizon (Seconds cfg.startMeasureTime)
      (Seconds (cfg.simulationTime + cfg.startMeasureTime)) cfg.sampleInterval hm
    have hkN : k < N := by
      by_contra hcon
      have hNk : (N : ℚ) ≤ k := by exact_mod_cast not_lt.mp hcon
      have := mul_le_mul_of_nonneg_right hNk (le_of_lt hm)
      linarith
    rw [simulate_fst_of_nonneg cfg sink fuel hstart hT,
      (runLoop_pending sink _ cfg.sampleInterval (le_of_lt hm) _ 0 0 [] 0 N hN hlt fuel).1,
      List.nil_append]
    have hlen : k < (fireAll cfg.sampleInterval (readings sink cfg.sampleInterval
        (Seconds cfg.startMeasureTime) (min fuel N)) 0).1.length := by
      rw [fireAll_readings_length]
      exact lt_min hk hkN
    exact ⟨_, List.getElem?_eq_getElem hlen⟩
  · intro s
    simp only [execute, schedule, MilliSeconds, CalculateThroughput, hneg, if_false]
  · intro fuel x hx
    obtain ⟨j, _, _, hout, _⟩ := simulate_shape cfg sink fuel
    rw [hout] at hx
    have hkj := (fireAll_readings_get sink _ _ 0 j 0 x hx).1
    rw [fireAll_readings_zero sink _ _ 0 j hkj] at hx
    cases hx
    simp only [CalculateThroughput]
  · intro fuel k x y hx hy
    obtain ⟨hx1, _⟩ := hget fuel k x hx
    obtain ⟨j, _, _, hout, _⟩ := simulate_shape cfg sink fuel
    rw [hout] at hy
    have hkj := (fireAll_readings_get sink _ _ 0 j (k + 1) y hy).1
    rw [fireAll_readings_succ sink _ j _ 0 k hkj] at hy
    cases hy
    simp only [CalculateThroughput]
    rw [hx1]
    have e : Seconds cfg.startMeasureTime + ((k + 1 : ℕ) : ℚ) * cfg.sampleInterval
        - (Seconds cfg.startMeasureTime + (k : ℚ) * cfg.sampleInterval)
          = cfg.sampleInterval := by
      push_cast
      ring
    rw [e]
    exact ⟨rfl, rfl⟩
  · intro fuel k x hx
    obtain ⟨hx1, _⟩ := hget fuel k x hx
    have h1 : x.timestamp = cfg.startMeasureTime * 1000 + k * cfg.sampleInterval := by
      rw [hx1]
      rfl
    refine ⟨h1, ?_⟩
    unfold ThroughputSample.seconds
    rw [h1]
    ring

theorem C4_sampler_rearms_after_interval_witness :
    (∀ s : SimState,
        (execute rampSink (.calculateThroughput defaults.sampleInterval) s).failure = s.failure
          ∧ (⟨s.clock + defaults.sampleInterval, s.nextSeq,
                .calculateThroughput defaults.sampleInterval⟩ : Event)
              ∈ (execute rampSink (.calculateThroughput defaults.sampleInterval) s).queue)
      ∧ (∀ (fuel k : ℕ) (x : ThroughputSample),
          (simulate defaults rampSink fuel).1.output[k]? = some x →
            x.timestamp = Seconds defaults.startMeasureTime + k * defaults.sampleInterval
              ∧ x.intervalMillis = defaults.sampleInterval)
      ∧ (∀ (fuel k : ℕ) (x y : ThroughputSample),
          (simulate defaults rampSink fuel).1.output[k]? = some x →
          (simulate defaults rampSink fuel).1.output[k + 1]? = some y →
            y.timestamp - x.timestamp = y.intervalMillis)
      ∧ (∀ (fuel k : ℕ), 0 ≤ defaults.startMeasureTime → k < fuel →
          Seconds defaults.startMeasureTime + k * defaults.sampleInterval
              ≤ Seconds (defaults.simulationTime + defaults.startMeasureTime) →
            ∃ x, (simulate defaults rampSink fuel).1.output[k]? = some x)
      ∧ (∀ s : SimState,
          (execute rampSink (.calculateThroughput defaults.sampleInterval) s).output
            = s.output ++
                [{ timestamp := s.clock
                   bytesSinceLast := sub64 (rampSink s.clock) s.lastTotalRx
                   intervalMillis := defaults.sampleInterval
                   rateMbps := (sub64 (rampSink s.clock) s.lastTotalRx : ℚ) * 8
                     / (defaults.sampleInterval * 1000) }])
      ∧ (∀ (fuel : ℕ) (x : ThroughputSample),
          (simulate defaults rampSink fuel).1.output[0]? = some x →
            x.rateMbps
              = (sub64 (rampSink x.timestamp) 0 : ℚ) * 8 / (defaults.sampleInterval * 1000))
      ∧ (∀ (fuel k : ℕ) (x y : ThroughputSample),
          (simulate defaults rampSink fuel).1.output[k]? = some x →
          (simulate defaults rampSink fuel).1.output[k + 1]? = some y →
            y.bytesSinceLast = sub64 (rampSink y.timestamp) (rampSink x.timestamp)
              ∧ y.rateMbps = (sub64 (rampSink y.timestamp) (rampSink x.timestamp) : ℚ) * 8
                  / ((y.timestamp - x.timestamp) * 1000))
      ∧ (∀ (fuel k : ℕ) (x : ThroughputSample),
          (simulate defaults rampSink fuel).1.output[k]? = some x →
            x.timestamp = defaults.startMeasureTime * 1000 + k * defaults.sampleInterval
              ∧ x.seconds
                  = defaults.startMeasureTime + k * defaults.sampleInterval / 1000) :=
  C4_sampler_rearms_after_interval defaults rampSink (by norm_num [defaults])

theorem zero_interval_run (fuel : ℕ) :
    (simulate { defaults with sampleInterval := 0 } rampSink fuel).1.state = .Running
      ∧ (simulate { defaults with sampleInterval := 0 } rampSink fuel).1.output.length
          = fuel := by
  rw [simulate_fst_of_nonneg _ rampSink fuel (by norm_num [defaults])
    (by norm_num [defaults])]
  obtain ⟨c', hc'⟩ := runLoop_fire rampSink
    (Seconds (({ defaults with sampleInterval := 0 } : ScenarioConfig).simulationTime
      + ({ defaults with sampleInterval := 0 } : ScenarioConfig).startMeasureTime))
    ({ defaults with sampleInterval := 0 } : ScenarioConfig).sampleInterval (le_refl _)
    fuel (Seconds ({ defaults with sampleInterval := 0 } : ScenarioConfig).startMeasureTime)
    0 0 [] 0 (by intro i _; norm_num [defaults, Seconds])
  rw [hc']
  exact ⟨rfl, by simp [pending, fireAll_readings_length]⟩

/-- C5 (as stated, refuted): with `sampleInterval = 0` the firing re-arms itself at the
same virtual time, never falls beyond the horizon and is never discarded: no amount of
fuel brings the run to `Stopped`, and no bound holds for the number of samples. -/
theorem C5_zero_interval_counterexample :
    (¬ ∃ fuel : ℕ,
        (simulate { defaults with sampleInterval := 0 } rampSink fuel).1.state = .Stopped)
      ∧ (¬ ∃ N : ℕ, ∀ fuel : ℕ,
        (simulate { defaults with sampleInterval := 0 } rampSink fuel).1.output.length
          ≤ N) := by
  constructor
  · rintro ⟨fuel, h⟩
    rw [(zero_interval_run fuel).1] at h
    exact absurd h (by decide)
  · rintro ⟨N, h⟩
    have := h (N + 1)
    rw [(zero_interval_run (N + 1)).2] at this
    omega

/-- C5 (amended): for every configuration no sample is computed or printed at a virtual
time greater than the stop time `simulationTime + startMeasureTime`; and for every
configuration with `sampleInterval > 0` there is a bound `N` on the number of samples such
that every run of more than `N` iterations has stopped (or was refused with
`InvalidDelay`), the firing left in the queue lying beyond the stop time. -/
theorem C5_samples_within_horizon (cfg : ScenarioConfig) (sink : ℚ → ℕ) :
    (∀ (fuel : ℕ), ∀ x ∈ (simulate cfg sink fuel).1.output,
        x.timestamp ≤ Seconds (cfg.simulationTime + cfg.startMeasureTime))
      ∧ (0 < cfg.sampleInterval → ∃ N : ℕ, ∀ fuel : ℕ,
          (simulate cfg sink fuel).1.output.length ≤ N
            ∧ (N < fuel → (simulate cfg sink fuel).1.state = .Stopped
                ∨ (simulate cfg sink fuel).1.failure = some .InvalidDelay)
            ∧ ((simulate cfg sink fuel).1.state = .Stopped →
                ∀ e ∈ (simulate cfg sink fuel).1.queue,
                  Seconds (cfg.simulationTime + cfg.startMeasureTime) < e.fireTime)) := by
  constructor
  · intro fuel x hx
    obtain ⟨j, _, hle, hout, _⟩ := simulate_shape cfg sink fuel
    rw [hout] at hx
    obtain ⟨k, hk⟩ := List.getElem?_of_mem hx
    obtain ⟨hkj, ht, _⟩ := fireAll_readings_get sink _ _ 0 j k x hk
    rw [ht]
    exact hle k hkj
  · intro hm
    obtain ⟨N, hN, hlt⟩ := exists_horizon (Seconds cfg.startMeasureTime)
      (Seconds (cfg.simulationTime + cfg.startMeasureTime)) cfg.sampleInterval hm
    refine ⟨N, fun fuel => ?_⟩
    by_cases h1 : cfg.startMeasureTime < 0
    · rw [simulate_fst_of_neg_start cfg sink fuel h1]
      simp [SimState.initial]
    · have h1' : 0 ≤ cfg.startMeasureTime := not_lt.mp h1
      by_cases h2 : cfg.simulationTime + cfg.startMeasureTime < 0
      · obtain ⟨ho, hf, hi⟩ := simulate_fst_of_neg_stop cfg sink fuel h1' h2
        refine ⟨by simp [ho], fun _ => Or.inr hf, fun hst => ?_⟩
        rw [hi] at hst
        exact absurd hst (by decide)
      · obtain ⟨hout, _, hq, hstop, hrun⟩ := runLoop_pending sink
          (Seconds (cfg.simulationTime + cfg.startMeasureTime)) cfg.sampleInterval
          (le_of_lt hm) (Seconds cfg.startMeasureTime) 0 0 [] 0 N hN hlt fuel
        rw [simulate_fst_of_nonneg cfg sink fuel h1' (not_lt.mp h2)]
        refine ⟨?_, fun h => Or.inl (hstop h), ?_⟩
        · rw [hout, List.nil_append, fireAll_readings_length]
          exact min_le_right _ _
        · intro hst e he
          have hfn : N < fuel := by
            by_contra hcon
            have := hrun (not_lt.mp hcon)
            rw [this] at hst
            exact absurd hst (by decide)
          rw [hq, Nat.min_eq_right (le_of_lt hfn)] at he
          simp only [List.mem_singleton] at he
          rw [he]
          exact hN

theorem C5_samples_within_horizon_witness :
    0 < defaults.sampleInterval
      ∧ ∃ N : ℕ, ∀ fuel : ℕ,
          (simulate defaults rampSink fuel).1.output.length ≤ N
            ∧ (N < fuel → (simulate defaults rampSink fuel).1.state = .Stopped
                ∨ (simulate defaults rampSink fuel).1.failure = some .InvalidDelay)
            ∧ ((simulate defaults rampSink fuel).1.state = .Stopped →
                ∀ e ∈ (simulate defaults rampSink fuel).1.queue,
                  Seconds (defaults.simulationTime + defaults.startMeasureTime)
                    < e.fireTime) :=
  ⟨by norm_num [defaults],
   (C5_samples_within_horizon defaults rampSink).2 (by norm_num [defaults])⟩

/-! ## Claims about configuration handling -/

theorem main_sim (args : List CmdOption) (sink : ℚ → ℕ) (fuel : ℕ) :
    (main args sink fuel).sim = (simulate (Parse args defaults) sink fuel).1 := rfl

theorem simulate_failure (cfg : ScenarioConfig) (sink : ℚ → ℕ) (fuel : ℕ) :
    (simulate cfg sink fuel).1.failure ≠ some .InvalidConfig := by
  obtain ⟨_, _, _, _, hf⟩ := simulate_shape cfg sink fuel
  rcases hf with hf | hf <;> rw [hf] <;> simp

theorem runLoop_output_extends (sink : ℚ → ℕ) (T m : ℚ) (n : ℕ) (t : ℚ) (seq last : ℕ)
    (out : List ThroughputSample) (c : ℚ) :
    ∃ l, (runLoop sink T n (pending m t seq last out c)).output = out ++ l := by
  by_cases hm : 0 ≤ m
  · obtain ⟨j, _, _, hout, _⟩ := runLoop_shape_nonneg sink T m hm n t seq last out c
    exact ⟨_, hout⟩
  · obtain ⟨j, _, _, hout, _⟩ := runLoop_shape_neg sink T m (not_le.mp hm) n t seq last out c
    exact ⟨_, hout⟩

/-- C7 (as stated, refuted): `--sampleInterval=-100` is accepted: `CalculateThroughput` is
scheduled and fires at 5 s, computing a rate with the divisor `-100 * 1000`; the run is
aborted only afterwards, by `InvalidDelay` on re-arming, never by `InvalidConfig`. -/
theorem C7_negative_interval_counterexample :
    (main [.sampleInterval (-100)] rampSink 5).config.sampleInterval = -100
      ∧ (main [.sampleInterval (-100)] rampSink 5).sim.failure = some .InvalidDelay
      ∧ (main [.sampleInterval (-100)] rampSink 5).sim.output
          = [{ timestamp := 5000, bytesSinceLast := 6250000, intervalMillis := -100,
               rateMbps := -500 }] := by
  refine ⟨rfl, ?_⟩
  rw [main_sim, simulate_fst_of_nonneg _ rampSink 5
    (by norm_num [Parse, CmdOption.assign, defaults])
    (by norm_num [Parse, CmdOption.assign, defaults]),
    runLoop_pending_succ,
    step_pending_fail rampSink _ _ _ 0 0 [] 0
      (by norm_num [Parse, CmdOption.assign, defaults, Seconds])
      (by norm_num [Parse, CmdOption.assign, defaults]),
    runLoop_not_running rampSink _ 4 _ (Or.inr (by simp))]
  refine ⟨rfl, ?_⟩
  norm_num [Parse, CmdOption.assign, defaults, Seconds, CalculateThroughput, rampSink, sub64]

/-- C7 (amended): the scripts do not validate `sampleInterval` and never fail with
`InvalidConfig`; every rate is computed with the divisor `sampleInterval * 1000` as given.
Whatever `sampleInterval` is, for `startMeasureTime ≥ 0` and `simulationTime ≥ 0` the
first `CalculateThroughput` firing is executed at `startMeasureTime`; for a negative
`sampleInterval` the run is then aborted by `InvalidDelay` after that single sample. -/
theorem C7_interval_not_validated (cfg : ScenarioConfig) (sink : ℚ → ℕ) (fuel : ℕ) :
    (simulate cfg sink fuel).1.failure ≠ some .InvalidConfig
      ∧ (∀ x ∈ (simulate cfg sink fuel).1.output,
          x.intervalMillis = cfg.sampleInterval
            ∧ x.rateMbps = (x.bytesSinceLast : ℚ) * 8 / (cfg.sampleInterval * 1000))
      ∧ (0 ≤ cfg.startMeasureTime → 0 ≤ cfg.simulationTime → 0 < fuel →
          (simulate cfg sink fuel).1.output[0]?
            = some (CalculateThroughput cfg.sampleInterval (Seconds cfg.startMeasureTime)
                (sink (Seconds cfg.startMeasureTime)) 0).sample)
      ∧ (cfg.sampleInterval < 0 → 0 ≤ cfg.startMeasureTime → 0 ≤ cfg.simulationTime →
          0 < fuel →
            (simulate cfg sink fuel).1.failure = some .InvalidDelay
              ∧ (simulate cfg sink fuel).1.output.length = 1) := by
  have hT : 0 ≤ cfg.startMeasureTime → 0 ≤ cfg.simulationTime →
      Seconds cfg.startMeasureTime ≤ Seconds (cfg.simulationTime + cfg.startMeasureTime) := by
    intro _ h
    unfold Seconds
    linarith
  refine ⟨simulate_failure cfg sink fuel, ?_, ?_, ?_⟩
  · intro x hx
    obtain ⟨j, _, _, hout, _⟩ := simulate_shape cfg sink fuel
    rw [hout] at hx
    obtain ⟨k, hk⟩ := List.getElem?_of_mem hx
    have hkj := (fireAll_readings_get sink _ _ 0 j k x hk).1
    cases k with
    | zero =>
      rw [fireAll_readings_zero sink _ _ 0 j hkj] at hk
      cases hk
      exact ⟨rfl, rfl⟩
    | succ k =>
      rw [fireAll_readings_succ sink _ j _ 0 k hkj] at hk
      cases hk
      exact ⟨rfl, rfl⟩
  · intro h1 h2 hfuel
    obtain ⟨n, rfl⟩ : ∃ n, fuel = n + 1 := ⟨fuel - 1, by omega⟩
    rw [simulate_fst_of_nonneg cfg sink _ h1 (by linarith), runLoop_pending_succ]
    by_cases hm : 0 ≤ cfg.sampleInterval
    · rw [step_pending_fire sink _ _ _ 0 0 [] 0 (hT h1 h2) hm]
      obtain ⟨l, hl⟩ := runLoop_output_extends sink
        (Seconds (cfg.simulationTime + cfg.startMeasureTime)) cfg.sampleInterval n
        (Seconds cfg.startMeasureTime + cfg.sampleInterval) (0 + 1)
        (sink (Seconds cfg.startMeasureTime))
        ([] ++ [(CalculateThroughput cfg.sampleInterval (Seconds cfg.startMeasureTime)
          (sink (Seconds cfg.startMeasureTime)) 0).sample]) (Seconds cfg.startMeasureTime)
      rw [hl]
      simp
    · rw [step_pending_fail sink _ _ _ 0 0 [] 0 (hT h1 h2) (not_le.mp hm),
        runLoop_not_running sink _ n _ (Or.inr (by simp))]
      simp
  · intro hm h1 h2 hfuel
    obtain ⟨n, rfl⟩ : ∃ n, fuel = n + 1 := ⟨fuel - 1, by omega⟩
    rw [simulate_fst_of_nonneg cfg sink _ h1 (by linarith), runLoop_pending_succ,
      step_pending_fail sink _ _ _ 0 0 [] 0 (hT h1 h2) hm,
      runLoop_not_running sink _ n _ (Or.inr (by simp))]
    simp

theorem C7_interval_not_validated_witness :
    (({ defaults with sampleInterval := -100 } : ScenarioConfig).sampleInterval < 0
        ∧ 0 ≤ ({ defaults with sampleInterval := -100 } : ScenarioConfig).startMeasureTime
        ∧ 0 ≤ ({ defaults with sampleInterval := -100 } : ScenarioConfig).simulationTime
        ∧ 0 < 3)
      ∧ (simulate { defaults with sampleInterval := -100 } rampSink 3).1.failure
          = some .InvalidDelay
      ∧ (simulate { defaults with sampleInterval := -100 } rampSink 3).1.output.length = 1 :=
  ⟨⟨by norm_num [defaults], by norm_num [defaults], by norm_num [defaults], by decide⟩,
   (C7_interval_not_validated { defaults with sampleInterval := -100 } rampSink 3).2.2.2
     (by norm_num [defaults]) (by norm_num [defaults]) (by norm_num [defaults])
     (by decide)⟩

theorem assign_get_self (o : CmdOption) (c : ScenarioConfig) :
    (o.assign c).get o.var = o.value := by
  cases o <;> rfl

theorem assign_get_other (o : CmdOption) (c : ScenarioConfig) (x : Var) (hx : x ≠ o.var) :
    (o.assign c).get x = c.get x := by
  cases o <;> cases x <;> first | rfl | exact absurd rfl hx

theorem Parse_get_other (args : List CmdOption) (x : Var) :
    ∀ c : ScenarioConfig, (∀ o ∈ args, o.var ≠ x) → (Parse args c).get x = c.get x := by
  induction args with
  | nil => intro c _; rfl
  | cons o rest ih =>
    intro c h
    have h1 : (Parse (o :: rest) c) = Parse rest (o.assign c) := rfl
    rw [h1, ih (o.assign c) (fun o' ho' => h o' (List.mem_cons_of_mem _ ho')),
      assign_get_other o c x (fun e => h o (List.mem_cons_self _ _) e.symm)]

theorem Parse_append (args : List CmdOption) (o : CmdOption) (c : ScenarioConfig) :
    Parse (args ++ [o]) c = o.assign (Parse args c) := by
  simp [Parse, List.foldl_append]

/-- C8: without any command-line option the configuration used by `main` is
`payloadSize = 1472`, `dataRate = "100Mbps"`, `simulationTime = 10`,
`startMeasureTime = 5`, `sampleInterval = 100`, `numNodes = 3`, `distance = 100`, pcap
tracing off; an option sets the variable it names to its value and leaves every other
variable as it was, also along a whole command line; distinct option names are bound to
distinct variables.  The configuration `main` runs with is the one obtained from the
command line: node creation, the start and stop times and the simulation all use the
parsed values; an option appended to a command line gives `main` its value for the
variable it names and leaves `main`'s other variables as they were; a variable no option
names keeps its default in `main`; each option alone changes `main`'s configuration from
the defaults in exactly its own variable; options are applied from left to right, a
repeated option taking its last value. -/
theorem C8_defaults_and_option_effects :
    (∀ (sink : ℚ → ℕ) (fuel : ℕ), (main [] sink fuel).config = defaults)
      ∧ (defaults.payloadSize = 1472 ∧ defaults.dataRate = "100Mbps"
          ∧ defaults.simulationTime = 10 ∧ defaults.startMeasureTime = 5
          ∧ defaults.sampleInterval = 100 ∧ defaults.numNodes = 3
          ∧ defaults.distance = 100 ∧ defaults.pcapTracing = false)
      ∧ (∀ (o : CmdOption) (c : ScenarioConfig),
          (o.assign c).get o.var = o.value
            ∧ ∀ x : Var, x ≠ o.var → (o.assign c).get x = c.get x)
      ∧ (∀ (args : List CmdOption) (c : ScenarioConfig) (x : Var),
          (∀ o ∈ args, o.var ≠ x) → (Parse args c).get x = c.get x)
      ∧ (∀ o₁ o₂ : CmdOption, o₁.name = o₂.name ↔ o₁.var = o₂.var)
      ∧ (∀ (args : List CmdOption) (sink : ℚ → ℕ) (fuel : ℕ),
          (main args sink fuel).config = Parse args defaults
            ∧ (main args sink fuel).nodesCreated = (Parse args defaults).numNodes
            ∧ (main args sink fuel).sourceNode = sub32 (Parse args defaults).numNodes 1
            ∧ (main args sink fuel).sourceStart
                = Seconds ((Parse args defaults).startMeasureTime
                    - (Parse args defaults).sampleInterval / 1000)
            ∧ (main args sink fuel).stopDelay
                = Seconds ((Parse args defaults).simulationTime
                    + (Parse args defaults).startMeasureTime)
            ∧ (main args sink fuel).sim = (simulate (Parse args defaults) sink fuel).1
            ∧ (main args sink fuel).average = (simulate (Parse args defaults) sink fuel).2)
      ∧ (∀ (args : List CmdOption) (o : CmdOption) (sink : ℚ → ℕ) (fuel : ℕ),
          (main (args ++ [o]) sink fuel).config.get o.var = o.value
            ∧ ∀ x : Var, x ≠ o.var →
                (main (args ++ [o]) sink fuel).config.get x
                  = (main args sink fuel).config.get x)
      ∧ (∀ (args : List CmdOption) (x : Var) (sink : ℚ → ℕ) (fuel : ℕ),
          (∀ o ∈ args, o.var ≠ x) → (main args sink fuel).config.get x = defaults.get x)
      ∧ (∀ (sink : ℚ → ℕ) (fuel : ℕ),
          (∀ v, (main [.phyMode v] sink fuel).config = { defaults with phyMode := v })
            ∧ (∀ v, (main [.payloadSize v] sink fuel).config
                = { defaults with payloadSize := v })
            ∧ (∀ v, (main [.dataRate v] sink fuel).config = { defaults with dataRate := v })
            ∧ (∀ v, (main [.tcpVariant v] sink fuel).config
                = { defaults with tcpVariant := v })
            ∧ (∀ v, (main [.phyRate v] sink fuel).config = { defaults with phyRate := v })
            ∧ (∀ v, (main [.simulationTime v] sink fuel).config
                = { defaults with simulationTime := v })
            ∧ (∀ v, (main [.startMeasureTime v] sink fuel).config
                = { defaults with startMeasureTime := v })
            ∧ (∀ v, (main [.sampleInterval v] sink fuel).config
                = { defaults with sampleInterval := v })
            ∧ (∀ v, (main [.pcap v] sink fuel).config = { defaults with pcapTracing := v })
            ∧ (∀ v, (main [.numNodes v] sink fuel).config = { defaults with numNodes := v })
            ∧ (∀ v, (main [.distance v] sink fuel).config = { defaults with distance := v }))
      ∧ (defaults.phyMode = "DsssRate1Mbps" ∧ defaults.tcpVariant = "TcpNewReno"
          ∧ defaults.phyRate = "HtMcs7")
      ∧ ((CmdOption.phyMode "").name = "phyMode"
          ∧ (CmdOption.payloadSize 0).name = "payloadSize"
          ∧ (CmdOption.dataRate "").name = "dataRate"
          ∧ (CmdOption.tcpVariant "").name = "tcpVariant"
          ∧ (CmdOption.phyRate "").name = "phyRate"
          ∧ (CmdOption.simulationTime 0).name = "simulationTime"
          ∧ (CmdOption.startMeasureTime 0).name = "startMeasureTime"
          ∧ (CmdOption.sampleInterval 0).name = "sampleInterval"
          ∧ (CmdOption.pcap false).name = "pcap"
          ∧ (CmdOption.numNodes 0).name = "numNodes"
          ∧ (CmdOption.distance 0).name = "distance")
      ∧ (∀ (sink : ℚ → ℕ) (fuel : ℕ) (v w : ℕ) (d : ℚ),
          (main [.numNodes v, .distance d, .numNodes w] sink fuel).config
            = { defaults with numNodes := w, distance := d }) := by
  have hcfg : ∀ (args : List CmdOption) (sink : ℚ → ℕ) (fuel : ℕ),
      (main args sink fuel).config = Parse args defaults := fun _ _ _ => rfl
  refine ⟨fun _ _ => rfl, ⟨rfl, rfl, rfl, rfl, rfl, rfl, rfl, rfl⟩,
    fun o c => ⟨assign_get_self o c, fun x hx => assign_get_other o c x hx⟩,
    fun args c x h => Parse_get_other args x c h, ?_,
    fun args sink fuel => ⟨rfl, rfl, rfl, rfl, rfl, rfl, rfl⟩, ?_, ?_,
    fun _ _ => ⟨fun _ => rfl, fun _ => rfl, fun _ => rfl, fun _ => rfl, fun _ => rfl,
      fun _ => rfl, fun _ => rfl, fun _ => rfl, fun _ => rfl, fun _ => rfl, fun _ => rfl⟩,
    ⟨rfl, rfl, rfl⟩, ⟨rfl, rfl, rfl, rfl, rfl, rfl, rfl, rfl, rfl, rfl, rfl⟩,
    fun _ _ _ _ _ => rfl⟩
  · intro o₁ o₂
    cases o₁ <;> cases o₂ <;> simp [CmdOption.name, CmdOption.var]
  · intro args o sink fuel
    rw [hcfg, hcfg, Parse_append]
    exact ⟨assign_get_self o _, fun x hx => assign_get_other o _ x hx⟩
  · intro args x sink fuel h
    rw [hcfg]
    exact Parse_get_other args x defaults h

theorem C8_defaults_and_option_effects_witness :
    (∀ o ∈ [CmdOption.numNodes 7, CmdOption.pcap true], o.var ≠ Var.distance)
      ∧ (main [CmdOption.numNodes 7, CmdOption.pcap true] rampSink 0).config.get Var.distance
          = defaults.get Var.distance :=
  ⟨by decide,
   C8_defaults_and_option_effects.2.2.2.2.2.2.2.1
     [CmdOption.numNodes 7, CmdOption.pcap true] Var.distance rampSink 0 (by decide)⟩

/-! ## Claims about the times handed over -/

/-- C9 (as stated, refuted): `--startMeasureTime=0` with the other defaults satisfies the
stated validation rules, yet the source start time is `0 - 100/1000` s, i.e. -100 ms, a
delay the scheduler refuses with `InvalidDelay`. -/
theorem C9_source_start_counterexample :
    SpecValid (main [.startMeasureTime 0] rampSink 0).config
      ∧ (main [.startMeasureTime 0] rampSink 0).sourceStart = -100
      ∧ (-100 : ℚ) ∈ (main [.startMeasureTime 0] rampSink 0).handedTimes
      ∧ schedule (main [.startMeasureTime 0] rampSink 0).sourceStart
          (.calculateThroughput 100) SimState.initial = .error .InvalidDelay := by
  have hs : (main [.startMeasureTime 0] rampSink 0).sourceStart = -100 := by
    norm_num [main, Parse, CmdOption.assign, defaults, Seconds]
  refine ⟨?_, hs, ?_, ?_⟩
  · norm_num [SpecValid, main, Parse, CmdOption.assign, defaults]
  · simp only [ProgramTrace.handedTimes, hs]
    simp
  · rw [hs]
    norm_num [schedule]

/-- C9 (amended): for every configuration that satisfies the stated validation rules and
whose `startMeasureTime` is at least one sample interval (`sampleInterval / 1000 ≤
startMeasureTime`), every time or delay handed over (sink start, source start, first
sample, stop time, re-arm delay) is `≥ 0` and accepted by the scheduler, and the run never
fails. -/
theorem C9_delays_nonnegative (args : List CmdOption) (sink : ℚ → ℕ) (fuel : ℕ)
    (hv : SpecValid (main args sink fuel).config)
    (hs : (main args sink fuel).config.sampleInterval / 1000
        ≤ (main args sink fuel).config.startMeasureTime) :
    (∀ d ∈ (main args sink fuel).handedTimes,
        0 ≤ d ∧ ∀ (a : Action) (s : SimState), ∃ s', schedule d a s = .ok s')
      ∧ (main args sink fuel).sim.failure = none := by
  obtain ⟨_, hm, hsim, hstart⟩ := hv
  have hc : (main args sink fuel).config = Parse args defaults := rfl
  rw [hc] at hm hsim hstart hs
  constructor
  · have hall : ∀ d ∈ (main args sink fuel).handedTimes, 0 ≤ d := by
      intro d hd
      simp only [ProgramTrace.handedTimes, main, Seconds, MilliSeconds, List.mem_cons,
        List.mem_singleton, List.not_mem_nil, or_false] at hd
      rcases hd with h | h | h | h | h <;> rw [h] <;> linarith
    intro d hd
    refine ⟨hall d hd, fun a s => ?_⟩
    simp [schedule, not_lt.mpr (hall d hd)]
  · rw [main_sim]
    obtain ⟨N, hN, hlt⟩ := exists_horizon (Seconds (Parse args defaults).startMeasureTime)
      (Seconds ((Parse args defaults).simulationTime + (Parse args defaults).startMeasureTime))
      (Parse args defaults).sampleInterval hm
    rw [simulate_fst_of_nonneg _ sink fuel hstart (by linarith)]
    exact (runLoop_pending sink _ _ (le_of_lt hm) _ 0 0 [] 0 N hN hlt fuel).2.1

theorem C9_delays_nonnegative_witness :
    (SpecValid (main [] rampSink 7).config
        ∧ (main [] rampSink 7).config.sampleInterval / 1000
            ≤ (main [] rampSink 7).config.startMeasureTime)
      ∧ (∀ d ∈ (main [] rampSink 7).handedTimes,
          0 ≤ d ∧ ∀ (a : Action) (s : SimState), ∃ s', schedule d a s = .ok s')
      ∧ (main [] rampSink 7).sim.failure = none :=
  ⟨⟨by norm_num [SpecValid, main, Parse, defaults],
    by norm_num [main, Parse, defaults]⟩,
   C9_delays_nonnegative [] rampSink 7
     (by norm_num [SpecValid, main, Parse, defaults])
     (by norm_num [main, Parse, defaults])⟩

/-! ## Claims about the final average -/

theorem averageThroughput_of_lt (totalRx : ℕ) (simulationTime : ℚ) (h : totalRx < 2 ^ 61) :
    averageThroughput totalRx simulationTime
      = ((totalRx : ℚ) * 8) / (1000000 * simulationTime) := by
  unfold averageThroughput
  rw [Nat.mod_eq_of_lt (by omega)]
  push_cast
  rfl

/-- The average is computed from the sink total at the stop time, counted from time 0. -/
theorem simulate_average (cfg : ScenarioConfig) (sink : ℚ → ℕ) (fuel : ℕ) (a : ℚ)
    (h : (simulate cfg sink fuel).2 = some a) :
    a = averageThroughput (sink (Seconds (cfg.simulationTime + cfg.startMeasureTime)))
      cfg.simulationTime := by
  by_cases h1 : cfg.startMeasureTime * 1000 < 0
  · simp [simulate, schedule, Seconds, h1] at h
  · by_cases h2 : (cfg.simulationTime + cfg.startMeasureTime) * 1000 < 0
    · simp [simulate, schedule, Stop, Seconds, SimState.initial, h1, h2] at h
    · simp only [simulate, schedule, Stop, Seconds, SimState.initial, h1, h2, if_false,
        zero_add] at h
      split at h
      · simpa [Seconds] using h.symm
      · simp at h

/-- C10 (the code at the failing input): for the sink total `B = 2 ^ 61` bytes and
`simulationTime = 10`, the product `B * 8` wraps to 0 in `uint64_t` and the reported
average is 0 Mbit/s, while `(B * 8) / (1e6 * simulationTime)` without wrap-around is not
0. -/
theorem C10_average_wraps_at_two_pow_61 :
    averageThroughput (2 ^ 61) 10 = 0
      ∧ averageThroughput (2 ^ 61) 10 ≠ (((2 ^ 61 : ℕ) : ℚ) * 8) / (1000000 * 10) := by
  have h : averageThroughput (2 ^ 61) 10 = 0 := by norm_num [averageThroughput]
  refine ⟨h, ?_⟩
  rw [h]
  norm_num

/-! ## Claims about the node loops -/

theorem toUnsigned_ofUnsigned (k : ℕ) (h : k < 2 ^ 32) : toUnsigned (ofUnsigned k) = k := by
  unfold toUnsigned ofUnsigned
  split <;> omega

theorem incInt_ofUnsigned (k : ℕ) (h : k + 1 < 2 ^ 32) :
    incInt (ofUnsigned k) = ofUnsigned (k + 1) := by
  unfold incInt ofUnsigned
  split <;> split <;> omega

theorem ofUnsigned_of_lt (k : ℕ) (h : k < 2 ^ 31) : ofUnsigned k = (k : ℤ) := by
  unfold ofUnsigned
  rw [if_pos h]

/-- Closed form of the counter loop: started at the counter value of `k ≤ numNodes`, it
runs the body for `k, k + 1, ..., numNodes - 1`, as far as the fuel reaches. -/
theorem forLoop_eq (n : ℕ) (hn : n < 2 ^ 32) (fuel : ℕ) :
    ∀ k : ℕ, k ≤ n →
      forLoop n fuel (ofUnsigned k) = (List.range' k (min fuel (n - k))).map ofUnsigned := by
  induction fuel with
  | zero => intro k _; simp [forLoop]
  | succ fuel ih =>
    intro k hk
    unfold forLoop
    rw [toUnsigned_ofUnsigned k (lt_of_le_of_lt hk hn)]
    by_cases hlt : k < n
    · rw [if_pos hlt, incInt_ofUnsigned k (by omega), ih (k + 1) hlt]
      have e : min (fuel + 1) (n - k) = min fuel (n - (k + 1)) + 1 := by omega
      rw [e, List.range'_succ, List.map_cons]
    · have e : n - k = 0 := by omega
      rw [if_neg hlt, e]
      simp

theorem forLoop_from_zero (n : ℕ) (hn : n < 2 ^ 32) (extra : ℕ) :
    forLoop n (n + extra) 0 = (List.range' 0 n).map ofUnsigned := by
  have h := forLoop_eq n hn (n + extra) 0 (Nat.zero_le n)
  have e0 : ofUnsigned 0 = 0 := by simp [ofUnsigned]
  have e : min (n + extra) (n - 0) = n := by omega
  rwa [e0, e] at h

theorem forLoop_from_one (n : ℕ) (hn : n < 2 ^ 32) (h1 : 1 ≤ n) (extra : ℕ) :
    forLoop n (n + extra) 1 = (List.range' 1 (n - 1)).map ofUnsigned := by
  have h := forLoop_eq n hn (n + extra) 1 h1
  have e0 : ofUnsigned 1 = 1 := by simp [ofUnsigned]
  have e : min (n + extra) (n - 1) = n - 1 := by omega
  rwa [e0, e] at h

theorem forLoop_self_zero (n : ℕ) (hn : n < 2 ^ 32) :
    forLoop n n 0 = (List.range' 0 n).map ofUnsigned :=
  forLoop_from_zero n hn 0

theorem positions_length (n : ℕ) (d : ℚ) (hn : n < 2 ^ 32) : (positions n d).length = n := by
  unfold positions
  rw [forLoop_self_zero n hn]
  simp

theorem positions_get (n : ℕ) (d : ℚ) (hn : n < 2 ^ 32) (j : ℕ) (hj : j < n) :
    (positions n d)[j]? = some ⟨((ofUnsigned j : ℤ) : ℚ) * d, 0, 0⟩ := by
  unfold positions
  rw [forLoop_self_zero n hn, List.getElem?_map, List.getElem?_map,
    List.getElem?_range' 0 1 hj]
  simp

theorem positions_get_of_lt (n : ℕ) (d : ℚ) (hn : n < 2 ^ 31) (j : ℕ) (hj : j < n) :
    (positions n d)[j]? = some ⟨(j : ℚ) * d, 0, 0⟩ := by
  rw [positions_get n d (by omega) j hj, ofUnsigned_of_lt j (by omega)]
  simp

/-- C12 (as stated, refuted): for `numNodes = 2 ^ 31 + 1` and `distance = 1` the entry of
index `2 ^ 31` cannot be `(2 ^ 31 * distance, 0, 0)`: the 32-bit `int` counter does not
hold that index, and with two's-complement wrap-around the entry is `(-2147483648, 0, 0)`. -/
theorem C12_int_counter_counterexample :
    (positions (2 ^ 31 + 1) 1)[2 ^ 31]? = some ⟨-2147483648, 0, 0⟩
      ∧ (positions (2 ^ 31 + 1) 1)[2 ^ 31]? ≠ some ⟨((2 ^ 31 : ℕ) : ℚ) * 1, 0, 0⟩ := by
  have h : (positions (2 ^ 31 + 1) 1)[2 ^ 31]? = some ⟨-2147483648, 0, 0⟩ := by
    rw [positions_get (2 ^ 31 + 1) 1 (by norm_num) (2 ^ 31) (by norm_num)]
    have e : ofUnsigned (2 ^ 31) = -2147483648 := by
      unfold ofUnsigned
      norm_num
    rw [e]
    norm_num
  refine ⟨h, ?_⟩
  rw [h]
  intro hcon
  have hx := congrArg Vector.x (Option.some.inj hcon)
  norm_num at hx

/-- C12 (amended): for every `numNodes < 2 ^ 31` (the indices a 32-bit `int` counter holds)
and every `distance`, the position list has exactly `numNodes` entries, the loop ending by
its own condition, and its `i`-th entry (`0 ≤ i < numNodes`) is `(i * distance, 0, 0)`; so
consecutive entries lie `distance` apart on the x-axis, the entry of the sink (node 0) is
the origin and the entry of the source (node `numNodes - 1`) is
`((numNodes - 1) * distance, 0, 0)`. -/
theorem C12_positions_on_a_line (numNodes : ℕ) (distance : ℚ) (h : numNodes < 2 ^ 31) :
    (positions numNodes distance).length = numNodes
      ∧ (∀ extra : ℕ,
          ((forLoop numNodes (numNodes + extra) 0).map
              fun i : ℤ => (⟨(i : ℚ) * distance, 0, 0⟩ : Vector))
            = positions numNodes distance)
      ∧ (∀ i : ℕ, i < numNodes →
          (positions numNodes distance)[i]? = some ⟨(i : ℚ) * distance, 0, 0⟩)
      ∧ (∀ (i : ℕ) (p q : Vector), (positions numNodes distance)[i]? = some p →
          (positions numNodes distance)[i + 1]? = some q →
            q.x - p.x = distance ∧ q.y = p.y ∧ q.z = p.z)
      ∧ (0 < numNodes →
          (positions numNodes distance)[0]? = some ⟨0, 0, 0⟩
            ∧ (positions numNodes distance)[sub32 numNodes 1]?
                = some ⟨((numNodes : ℚ) - 1) * distance, 0, 0⟩) := by
  have h32 : numNodes < 2 ^ 32 := by omega
  have hlen := positions_length numNodes distance h32
  have hget := positions_get_of_lt numNodes distance h
  refine ⟨hlen, ?_, hget, ?_, ?_⟩
  · intro extra
    unfold positions
    rw [forLoop_from_zero numNodes h32 extra, forLoop_self_zero numNodes h32]
  · intro i p q hp hq
    have hi1 : i + 1 < numNodes := by
      have := (List.getElem?_eq_some_iff.mp hq).1
      rwa [hlen] at this
    rw [hget i (by omega)] at hp
    rw [hget (i + 1) hi1] at hq
    cases hp
    cases hq
    refine ⟨?_, rfl, rfl⟩
    push_cast
    ring
  · intro hpos
    constructor
    · have := hget 0 hpos
      simpa using this
    · rw [sub32_of_le hpos h32, hget (numNodes - 1) (by omega), Nat.cast_sub hpos]
      simp

theorem C12_positions_on_a_line_witness :
    (3 : ℕ) < 2 ^ 31
      ∧ (positions 3 100).length = 3
      ∧ (∀ i : ℕ, i < 3 → (positions 3 100)[i]? = some ⟨(i : ℚ) * 100, 0, 0⟩)
      ∧ (positions 3 100)[sub32 3 1]? = some ⟨((3 : ℕ) - 1 : ℚ) * 100, 0, 0⟩ :=
  ⟨by norm_num,
   (C12_positions_on_a_line 3 100 (by norm_num)).1,
   (C12_positions_on_a_line 3 100 (by norm_num)).2.2.1,
   ((C12_positions_on_a_line 3 100 (by norm_num)).2.2.2.2 (by norm_num)).2⟩

/-- The route installed for node `i` (`1 ≤ i < numNodes`, within the range of the `int`
counter): destination and interface are as written in the call, the next hop is the text
designated by the pointer `"10.0.0." + i`. -/
theorem staticRoutes_get (n : ℕ) (hn : n < 2 ^ 31) (i : ℕ) (h1 : 1 ≤ i) (hi : i < n) :
    (staticRoutes n)[i - 1]?
      = some { node := i, dest := "10.0.0.1", nextHop := cstrPlus "10.0.0." (i : ℤ),
               interface := i } := by
  have hlt : i - 1 < n - 1 := by omega
  have e : forLoop n n 1 = (List.range' 1 (n - 1)).map ofUnsigned :=
    forLoop_from_one n (by omega) (by omega) 0
  unfold staticRoutes
  rw [e, List.getElem?_map, List.getElem?_map, List.getElem?_range' 1 1 hlt]
  have e2 : 1 + 1 * (i - 1) = i := by omega
  simp only [Option.map_some', e2, ofUnsigned_of_lt i (by omega)]
  have e3 : toUnsigned (i : ℤ) = i := by
    unfold toUnsigned
    omega
  rw [e3]

/-- C11 (the code at the failing input): with the default `numNodes = 3` the routes of
nodes 1 and 2 have destination `10.0.0.1` and interface 1 and 2, but their next-hop texts
are `"0.0.0."` and `".0.0."`, the literal `"10.0.0."` with its first `i` characters
skipped, not `"10.0.0.1"` and `"10.0.0.2"`; with `numNodes = 9` the eight next-hop texts
shrink down to the empty string, and for `i = 8` the pointer is out of bounds. -/
theorem C11_next_hop_skips_characters :
    staticRoutes 3
        = [{ node := 1, dest := "10.0.0.1", nextHop := some "0.0.0.", interface := 1 },
           { node := 2, dest := "10.0.0.1", nextHop := some ".0.0.", interface := 2 }]
      ∧ (∀ r ∈ staticRoutes 3, r.nextHop ≠ some ("10.0.0." ++ toString r.node))
      ∧ (staticRoutes 9).map HostRoute.nextHop
          = [some "0.0.0.", some ".0.0.", some "0.0.", some ".0.", some "0.", some ".",
             some "", none] := by
  refine ⟨by decide, by decide, by decide⟩

end WifiUdpStream
